import Mathlib

/-!
# SCP.Operative.System: translation lookup and settings lifecycle of `app.js`

A shallow embedding of the settings and localisation code of `src/app.js`
(`getTranslation`, `loadSettings`, `applySettings`, `saveSettings`,
`resetSettings`, `changeLanguage`, `changeTheme`, `toggleEffect`, `addLog`)
together with the fragment of the JavaScript and DOM semantics these
functions rely on.

Modelling decisions.

* JavaScript strings are sequences of UTF-16 code units (`JStr`); string
  literals of the source are written `utf16 "..."`.
* Values (`JSVal`) are `undefined`, `null`, booleans, integer numbers,
  strings, plain objects (ordered own properties) and host objects (anything
  reached through a prototype chain, described by a `Realm`).  Arrays and
  non-integer numbers are outside the model.
* A persisted text is kept up to JSON equivalence (`Blob`): either a text of
  the JSON grammar, represented by the value it denotes, or a text outside
  the grammar.  `localStorage` is taken to be accessible.
* The document is represented by what the code reads back: which ids exist,
  the checkbox states, the class attribute of `body`, the keys of the
  translatable elements and the lines of the system log.  Writes that the
  code never reads back (button highlights, `textContent`, `innerHTML`,
  timestamps) are left out.  The three list renderers are a parameter of
  the page.
* A function of the source is a state transformer that returns the outcome
  (normal completion or the exception thrown) together with the state
  reached, so that the state after an uncaught exception can be inspected.
-/

namespace SCP

/-! ## Strings -/

/-- A JavaScript string: its UTF-16 code units. -/
abbrev JStr := List Nat

/-- UTF-16 code units of one Unicode scalar value. -/
def utf16Char (c : Char) : List Nat :=
  if c.toNat < 65536 then [c.toNat]
  else [55296 + (c.toNat - 65536) / 1024, 56320 + (c.toNat - 65536) % 1024]

/-- UTF-16 encoding of a list of characters. -/
def utf16Chars : List Char → JStr
  | [] => []
  | c :: cs => utf16Char c ++ utf16Chars cs

/-- The JavaScript string written as the literal `s`. -/
def utf16 (s : String) : JStr := utf16Chars s.data

/-- ASCII digit `0`-`9`. -/
def isDigit (u : Nat) : Bool := decide (48 ≤ u) && decide (u ≤ 57)

/-- The regular expression class `\w` (no `u` or `i` flag): `[A-Za-z0-9_]`. -/
def isWord (u : Nat) : Bool :=
  isDigit u || (decide (65 ≤ u) && decide (u ≤ 90)) ||
    (decide (97 ≤ u) && decide (u ≤ 122)) || decide (u = 95)

/-- ASCII whitespace of the DOM standard: TAB, LF, FF, CR, SPACE. -/
def isWs (u : Nat) : Bool :=
  decide (u = 9) || decide (u = 10) || decide (u = 12) || decide (u = 13) || decide (u = 32)

/-- The code unit of `.`. -/
def dot : Nat := 46

/-- `key.split('.')`: the maximal runs between dots; never empty (the empty
string splits into one empty segment). -/
def splitDot (key : JStr) : List JStr := key.splitOnP (fun u => u == dot)

/-- Value of a run of decimal digits. -/
def digitsValue (ds : List Nat) : Nat := ds.foldl (fun acc d => 10 * acc + (d - 48)) 0

/-- The integer index a property key denotes: a canonical decimal numeral
(`"0"`, or digits without a leading zero). -/
def arrayIndex (k : JStr) : Option Nat :=
  match k with
  | [] => none
  | d :: ds =>
    if (d :: ds).all isDigit && (ds.isEmpty || d != 48) then some (digitsValue (d :: ds))
    else none

/-- Decimal digits of a natural number, most significant first (`fuel`
bounds the number of digits). -/
def natDigits : Nat → Nat → List Nat
  | 0, _ => []
  | fuel + 1, n => if n < 10 then [48 + n] else natDigits fuel (n / 10) ++ [48 + n % 10]

/-- `String(n)` for an integer `n`. -/
def intToStr (n : Int) : JStr :=
  match n with
  | Int.ofNat m => natDigits (m + 1) m
  | Int.negSucc m => 45 :: natDigits (m + 2) (m + 1)

/-! ## Values -/

mutual
/-- JavaScript values of the model. -/
inductive JSVal where
  | undefined
  | null
  | bool (b : Bool)
  | num (n : Int)
  | str (s : JStr)
  | obj (ps : Props)
  | host (h : Nat)
/-- Own properties of a plain object, in insertion order. -/
inductive Props where
  | nil
  | cons (k : JStr) (v : JSVal) (rest : Props)
end

deriving instance DecidableEq for JSVal, Props

/-- Own property `k` of a property list, if any. -/
def Props.find : Props → JStr → Option JSVal
  | .nil, _ => none
  | .cons k v rest, q => if k = q then some v else rest.find q

/-- Replace the value of the first own property `q` (the list is unchanged
when there is none). -/
def Props.replace : Props → JStr → JSVal → Props
  | .nil, _, _ => .nil
  | .cons k v rest, q, w => if k = q then .cons k w rest else .cons k v (rest.replace q w)

/-- Append a property at the end. -/
def Props.push : Props → JStr → JSVal → Props
  | .nil, q, w => .cons q w .nil
  | .cons k v rest, q, w => .cons k v (rest.push q w)

/-- Effect of `o[q] = w` on the own properties of a plain object `o`: an
existing own property is overwritten in place, a new one is appended.  The
accessor `__proto__` inherited from `Object.prototype` creates no own
property. -/
def Props.assign (ps : Props) (q : JStr) (w : JSVal) : Props :=
  match ps.find q with
  | some _ => ps.replace q w
  | none => if q = utf16 "__proto__" then ps else ps.push q w

/-- Build a property list from pairs. -/
def Props.ofList : List (JStr × JSVal) → Props
  | [] => .nil
  | (k, v) :: rest => .cons k v (Props.ofList rest)

/-- Which prototype chain a value has. -/
inductive Kind where
  | boolean
  | number
  | string
  | object
deriving DecidableEq

/-- The built-in environment: what the prototype chains provide.  The general
theorems are stated for every realm. -/
structure Realm where
  /-- Value found on the prototype chain of a value of the given kind for a
  name the value has no own property for; `undefined` when there is none. -/
  proto : Kind → JStr → JSVal
  /-- Property lookup on a host object. -/
  hostGet : Nat → JStr → JSVal
  /-- `String(h)` for a host object. -/
  hostStr : Nat → JStr
  /-- What `JSON.stringify` makes of a host object (`undefined` for a function). -/
  hostJson : Nat → JSVal

/-- Exceptions thrown by the modelled code. -/
inductive Err where
  | typeError
  | syntaxError
  | invalidCharacter
deriving DecidableEq

/-- Outcomes can be compared. -/
instance instDecEqOutcome {α : Type} [DecidableEq α] : DecidableEq (Except Err α)
  | .ok a, .ok b => if h : a = b then isTrue (by rw [h]) else isFalse (fun e => h (by cases e; rfl))
  | .error a, .error b =>
    if h : a = b then isTrue (by rw [h]) else isFalse (fun e => h (by cases e; rfl))
  | .ok _, .error _ => isFalse (fun e => by cases e)
  | .error _, .ok _ => isFalse (fun e => by cases e)

/-- `v[k]` for a value `v` that is neither `undefined` nor `null`: own
properties first (for a string its `length` and its code units), then the
prototype chain. -/
def getProp (R : Realm) (v : JSVal) (k : JStr) : JSVal :=
  match v with
  | .undefined => .undefined
  | .null => .undefined
  | .bool _ => R.proto .boolean k
  | .num _ => R.proto .number k
  | .str s =>
    if k = utf16 "length" then .num s.length
    else match arrayIndex k with
      | some i => match s[i]? with
        | some u => .str [u]
        | none => R.proto .string k
      | none => R.proto .string k
  | .obj ps => match ps.find k with
    | some w => w
    | none => R.proto .object k
  | .host h => R.hostGet h k

/-- Optional chaining `v?.[k]`: `undefined` when `v` is `undefined` or `null`. -/
def optGet (R : Realm) (v : JSVal) (k : JStr) : JSVal :=
  match v with
  | .undefined => .undefined
  | .null => .undefined
  | w => getProp R w k

/-- Plain member access `v[k]`: a `TypeError` when `v` is `undefined` or `null`. -/
def getStrict (R : Realm) (v : JSVal) (k : JStr) : Except Err JSVal :=
  match v with
  | .undefined => .error .typeError
  | .null => .error .typeError
  | w => .ok (getProp R w k)

/-- `String(v)`, as used by `+` with a string, by template literals and for
property keys.  A plain object converts through `Object.prototype.toString`;
an own `toString` property of a data object is not callable, which leaves
no primitive to convert to. -/
def toStr (R : Realm) (v : JSVal) : Except Err JStr :=
  match v with
  | .undefined => .ok (utf16 "undefined")
  | .null => .ok (utf16 "null")
  | .bool true => .ok (utf16 "true")
  | .bool false => .ok (utf16 "false")
  | .num n => .ok (intToStr n)
  | .str s => .ok s
  | .obj ps => match ps.find (utf16 "toString") with
    | some _ => .error .typeError
    | none => .ok (utf16 "[object Object]")
  | .host h => .ok (R.hostStr h)

/-- Truthiness. -/
def toBool (v : JSVal) : Bool :=
  match v with
  | .undefined => false
  | .null => false
  | .bool b => b
  | .num n => decide (n ≠ 0)
  | .str s => !s.isEmpty
  | .obj _ => true
  | .host _ => true

/-- `target[k] = w` on a value: the value of `target` afterwards.  A
`TypeError` on `undefined` and `null`; silently ignored on a primitive (the
script is not in strict mode); a host object is not part of the state. -/
def assignIn (target : JSVal) (k : JStr) (w : JSVal) : Except Err JSVal :=
  match target with
  | .undefined => .error .typeError
  | .null => .error .typeError
  | .obj ps => .ok (.obj (ps.assign k w))
  | other => .ok other

/-! ## Translation lookup (`app.js` lines 126-134) -/

/-- The source function `getTranslation`:
`keys = key.split('.')`, `value = translations[currentLanguage]`, then
`value = value?.[k]` for every `k` of `keys`. -/
def getTranslation (R : Realm) (translations currentLanguage : JSVal) (key : JStr) :
    Except Err JSVal := do
  let keys := splitDot key
  let lang ← toStr R currentLanguage
  let value ← getStrict R translations lang
  pure (keys.foldl (optGet R) value)

/-- The resolver as the specification words it: walk the segments from the
starting value and stop with `undefined` as soon as the current value is
absent (a value `undefined`, or a `null` that is still to be indexed). -/
def walkSpec (R : Realm) : JSVal → List JStr → JSVal
  | v, [] => v
  | .undefined, _ :: _ => .undefined
  | .null, _ :: _ => .undefined
  | v, k :: ks => walkSpec R (getProp R v k) ks

/-! ## The persisted settings text -/

/-- The text stored under `"scpSettings"`, up to JSON equivalence. -/
inductive Blob where
  /-- A text of the JSON grammar, denoting the value `v` (never the empty text). -/
  | json (v : JSVal)
  /-- A text outside the JSON grammar; `empty` tells whether it is `""`. -/
  | text (empty : Bool)
deriving DecidableEq

mutual
/-- The value that the text `JSON.stringify(v)` denotes; `undefined` when
`JSON.stringify` returns `undefined` instead of a text. -/
def jsonOf (R : Realm) : JSVal → JSVal
  | .obj ps => .obj (jsonProps R ps)
  | .host h => R.hostJson h
  | v => v
/-- Serialised own properties: a property whose value serialises to
`undefined` is left out. -/
def jsonProps (R : Realm) : Props → Props
  | .nil => .nil
  | .cons k v rest =>
    match jsonOf R v with
    | .undefined => jsonProps R rest
    | j => .cons k j (jsonProps R rest)
end

/-- What `localStorage.setItem(key, JSON.stringify(v))` stores: the JSON
text, or the text `undefined` (not JSON) when there is nothing to serialise. -/
def stringify (R : Realm) (v : JSVal) : Blob :=
  match jsonOf R v with
  | .undefined => .text false
  | j => .json j

/-- `JSON.parse`: a `SyntaxError` on a text outside the grammar. -/
def parse (b : Blob) : Except Err JSVal :=
  match b with
  | .json v => .ok v
  | .text _ => .error .syntaxError

/-- Truthiness of a stored text: only the empty text is falsy. -/
def Blob.truthy (b : Blob) : Bool :=
  match b with
  | .json _ => true
  | .text empty => !empty

/-! ## The class attribute of `body` -/

/-- Remove duplicates, keeping first occurrences. -/
def uniq : List JStr → List JStr
  | [] => []
  | t :: ts => t :: (uniq ts).filter (fun x => x != t)

/-- The token set of a class attribute (`classList`): the maximal runs
without ASCII whitespace, in order, without duplicates. -/
def tokens (cls : JStr) : List JStr :=
  uniq ((cls.splitOnP isWs).filter (fun t => !t.isEmpty))

/-- Serialisation of a token set: the tokens joined by single spaces. -/
def serialize : List JStr → JStr
  | [] => []
  | [t] => t
  | t :: ts => t ++ 32 :: serialize ts

/-- Validation of a `classList` argument. -/
def checkToken (tok : JStr) : Except Err Unit :=
  if tok.isEmpty then .error .syntaxError
  else if tok.any isWs then .error .invalidCharacter
  else .ok ()

/-- Append a token to a token set unless it is there already. -/
def addTok (ts : List JStr) (tok : JStr) : List JStr := if tok ∈ ts then ts else ts ++ [tok]

/-- Remove a token from a token set. -/
def removeTok (ts : List JStr) (tok : JStr) : List JStr := ts.filter (fun t => t != tok)

/-- The class attribute after `classList.add(tok)`. -/
def classAdd (cls tok : JStr) : Except Err JStr := do
  checkToken tok
  pure (serialize (addTok (tokens cls) tok))

/-- The class attribute after `classList.remove(tok)`. -/
def classRemove (cls tok : JStr) : Except Err JStr := do
  checkToken tok
  pure (serialize (removeTok (tokens cls) tok))

/-- Does a match of `theme-\w+` start at the head of the text? -/
def themeAt (l : JStr) : Bool :=
  (utf16 "theme-").isPrefixOf l &&
    (match l.drop 6 with
     | u :: _ => isWord u
     | [] => false)

/-- The scan of `replace(/theme-\w+/g, '')` from left to right: where a match
starts, `theme-` and the longest run of word code units behind it are
dropped and the scan goes on behind the match; any other code unit is
copied.  `fuel` bounds the number of steps. -/
def replaceGo : Nat → JStr → JStr
  | 0, l => l
  | _ + 1, [] => []
  | fuel + 1, u :: l =>
    if themeAt (u :: l) then replaceGo fuel ((l.drop 5).dropWhile isWord)
    else u :: replaceGo fuel l

/-- The text `cls.replace(/theme-\w+/g, '')`. -/
def stripTheme (cls : JStr) : JStr := replaceGo cls.length cls

/-- The same scan as a one-pass machine, for the proofs.  `skip` counts the
code units of `theme-` still to be dropped, `inWord` tells that the machine
is inside the greedy `\w+` of a match. -/
def stripGo : Nat → Bool → JStr → JStr
  | _, _, [] => []
  | skip + 1, w, _ :: l => stripGo skip w l
  | 0, w, u :: l =>
    if w && isWord u then stripGo 0 true l
    else if themeAt (u :: l) then stripGo 5 true l
    else u :: stripGo 0 false l

/-- A text matching `\w+`: one or more word code units. -/
def isWordStr (t : JStr) : Bool := !t.isEmpty && t.all isWord

/-- A class that is a theme marker: a whole token matching `theme-\w+`. -/
def isThemeMarker (tok : JStr) : Bool :=
  (utf16 "theme-").isPrefixOf tok && isWordStr (tok.drop 6)

/-- Does the text `theme-` occur somewhere in the token? -/
def hasThemeDash (tok : JStr) : Bool :=
  tok.tails.any (fun u => (utf16 "theme-").isPrefixOf u)

/-- The theme markers carried by a class attribute. -/
def themeMarkers (cls : JStr) : List JStr := (tokens cls).filter isThemeMarker

/-- Every class of the attribute is either a theme marker or free of the
text `theme-`. -/
def cleanClasses (cls : JStr) : Bool :=
  (cls.splitOnP isWs).all (fun tok => isThemeMarker tok || !hasThemeDash tok)

/-! ## Program state -/

/-- The parts of the page that the settings code does not change. -/
structure Page where
  /-- Ids of the elements other than the effect checkboxes (language and
  theme buttons, `systemLog`, ...). -/
  ids : List JStr
  /-- The `data-i18n` keys of the translatable elements, in document order. -/
  i18n : List JStr
  /-- Whether `renderSCPList(); renderPersonnel(); renderIncidents()` run to
  completion for the given translation table and current language (they
  read the data tables, the containers and the translations, and write only
  the `innerHTML` of their containers). -/
  renders : JSVal → JSVal → Bool

/-- The mutable state: the globals of `app.js`, the persisted store and the
mutable parts of the document. -/
structure State where
  /-- Global `translations`. -/
  translations : JSVal
  /-- Global `currentLanguage`. -/
  currentLanguage : JSVal
  /-- Global `settings`. -/
  settings : JSVal
  /-- The item `"scpSettings"` of `localStorage`, if present. -/
  stored : Option Blob
  /-- Every text written by `localStorage.setItem("scpSettings", _)` so far. -/
  writes : List Blob
  /-- `document.body.className`. -/
  bodyClass : JStr
  /-- The effect checkboxes: element id and `checked`. -/
  boxes : List (JStr × Bool)
  /-- Messages appended to the `systemLog` container. -/
  log : List JStr

/-- A computation of the program: the outcome and the state reached. -/
def JS (α : Type) : Type := State → Except Err α × State

instance : Monad JS where
  pure a := fun s => (.ok a, s)
  bind m f := fun s =>
    match m s with
    | (.ok a, s1) => f a s1
    | (.error e, s1) => (.error e, s1)

/-- Read the state. -/
def getState : JS State := fun s => (.ok s, s)

/-- Update the state. -/
def modifyState (f : State → State) : JS Unit := fun s => (.ok (), f s)

/-- Continue with a value or throw the exception. -/
def liftE {α : Type} (r : Except Err α) : JS α := fun s => (r, s)

/-- Throw. -/
def throwJS {α : Type} (e : Err) : JS α := fun s => (.error e, s)

/-- Throw `e` unless the condition holds (a member access on the `null` that
`getElementById` returns for a missing element, a renderer that fails). -/
def guardJS (c : Bool) (e : Err) : JS Unit := if c then pure () else throwJS e

/-- Run `m` when the condition holds: an `if` without `else`. -/
def whenJS (c : Bool) (m : JS Unit) : JS Unit := if c then m else pure ()

/-- `checked` of the checkbox with the given id, if the element exists. -/
def findBox : List (JStr × Bool) → JStr → Option Bool
  | [], _ => none
  | (i, c) :: rest, q => if i = q then some c else findBox rest q

/-- Set `checked` of the checkbox with the given id. -/
def setBox : List (JStr × Bool) → JStr → Bool → List (JStr × Bool)
  | [], _, _ => []
  | (i, c) :: rest, q, b => if i = q then (i, b) :: rest else (i, c) :: setBox rest q b

/-- The literal of lines 9-18 and 83-92: the default settings. -/
def defaultSettings : JSVal :=
  .obj (Props.ofList
    [(utf16 "language", .str (utf16 "es")),
     (utf16 "theme", .str (utf16 "green")),
     (utf16 "effects", .obj (Props.ofList
        [(utf16 "crt", .bool true),
         (utf16 "scanlines", .bool true),
         (utf16 "glitch", .bool true),
         (utf16 "grid", .bool true)]))])

/-- The state in which the script starts (lines 5-18), for a given document
and persisted store: `translations = {}`, `currentLanguage = 'es'`, the
default settings. -/
def initialState (stored : Option Blob) (bodyClass : JStr) (boxes : List (JStr × Bool)) :
    State where
  translations := .obj .nil
  currentLanguage := .str (utf16 "es")
  settings := defaultSettings
  stored := stored
  writes := []
  bodyClass := bodyClass
  boxes := boxes
  log := []

/-! ## The settings functions of `app.js` -/

/-- The source function `addLog(message)` (lines 329-339): nothing without
the `systemLog` container; otherwise the message is converted to text by the
template literal and appended. -/
def addLog (R : Realm) (P : Page) (message : JSVal) : JS Unit := do
  if utf16 "systemLog" ∈ P.ids then
    let text ← liftE (toStr R message)
    modifyState fun s => { s with log := s.log ++ [text] }
  else
    pure ()

/-- The source function `saveSettings` (lines 76-79). -/
def saveSettings (R : Realm) (P : Page) : JS Unit := do
  modifyState fun s =>
    { s with stored := some (stringify R s.settings),
             writes := s.writes ++ [stringify R s.settings] }
  let s ← getState
  let lang ← liftE (toStr R s.currentLanguage)
  let table ← liftE (getStrict R s.translations lang)
  let group ← liftE (getStrict R table (utf16 "settings"))
  let message ← liftE (getStrict R group (utf16 "settingsSaved"))
  addLog R P message

/-- The loop of `changeLanguage` over the translatable elements: each key is
looked up with `getTranslation`, and a truthy result is converted to text
for `textContent`.  The loop changes nothing that the code reads back, so
only its outcome is kept. -/
def translateAll (R : Realm) (translations currentLanguage : JSVal) :
    List JStr → Except Err Unit
  | [] => pure ()
  | key :: rest => do
    let translation ← getTranslation R translations currentLanguage key
    if toBool translation then
      let _ ← toStr R translation
      translateAll R translations currentLanguage rest
    else
      translateAll R translations currentLanguage rest

/-- The source function `changeLanguage(lang, save)` (lines 99-124). -/
def changeLanguage (R : Realm) (P : Page) (lang : JSVal) (save : Bool) : JS Unit := do
  modifyState fun s => { s with currentLanguage := lang }
  let s ← getState
  let settings ← liftE (assignIn s.settings (utf16 "language") lang)
  modifyState fun s => { s with settings := settings }
  let name ← liftE (toStr R lang)
  guardJS (decide (utf16 "lang-" ++ name ∈ P.ids)) .typeError
  let s ← getState
  liftE (translateAll R s.translations s.currentLanguage P.i18n)
  guardJS (P.renders s.translations s.currentLanguage) .typeError
  whenJS save (saveSettings R P)

/-- The source function `changeTheme(theme, save)` (lines 137-153). -/
def changeTheme (R : Realm) (P : Page) (theme : JSVal) (save : Bool) : JS Unit := do
  let s ← getState
  let settings ← liftE (assignIn s.settings (utf16 "theme") theme)
  modifyState fun s => { s with settings := settings }
  let name ← liftE (toStr R theme)
  guardJS (decide (utf16 "theme-" ++ name ∈ P.ids)) .typeError
  modifyState fun s => { s with bodyClass := stripTheme s.bodyClass }
  whenJS (decide (theme ≠ .str (utf16 "green"))) (do
    let s ← getState
    let cls ← liftE (classAdd s.bodyClass (utf16 "theme-" ++ name))
    modifyState fun s => { s with bodyClass := cls })
  whenJS save (saveSettings R P)

/-- The statement `settings.effects[effect] = checked`: the object held by
`settings.effects` is updated in place, which shows in `settings` when
`effects` is an own property of a plain object. -/
def assignEffect (R : Realm) (settings : JSVal) (effect : JStr) (checked : Bool) :
    Except Err JSVal := do
  let effects ← getStrict R settings (utf16 "effects")
  let effects1 ← assignIn effects effect (.bool checked)
  match settings with
  | .obj ps =>
    match ps.find (utf16 "effects") with
    | some _ => pure (.obj (ps.replace (utf16 "effects") effects1))
    | none => pure settings
  | other => pure other

/-- `checkbox.checked` after `if (state !== null) checkbox.checked = state`,
for a checkbox whose `checked` was `old`.  An argument `undefined` takes the
default `null`. -/
def checkedOf (state : JSVal) (old : Bool) : Bool :=
  if state = .null ∨ state = .undefined then old else toBool state

/-- The body of `if (checkbox) { ... }` in `toggleEffect`, for a checkbox
whose `checked` is `old`. -/
def toggleBox (R : Realm) (effect : JStr) (state : JSVal) (old : Bool) : JS Unit := do
  let checked := checkedOf state old
  modifyState fun s => { s with boxes := setBox s.boxes (utf16 "toggle-" ++ effect) checked }
  let s ← getState
  let settings ← liftE (assignEffect R s.settings effect checked)
  modifyState fun s => { s with settings := settings }
  let s ← getState
  let cls ← liftE (if checked then classRemove s.bodyClass (utf16 "no-" ++ effect)
    else classAdd s.bodyClass (utf16 "no-" ++ effect))
  modifyState fun s => { s with bodyClass := cls }

/-- The source function `toggleEffect(effect, state, save)` (lines 156-175). -/
def toggleEffect (R : Realm) (P : Page) (effect : JStr) (state : JSVal) (save : Bool) :
    JS Unit := do
  let s ← getState
  (match findBox s.boxes (utf16 "toggle-" ++ effect) with
    | some old => toggleBox R effect state old
    | none => pure ())
  whenJS save (saveSettings R P)

/-- One line of `applySettings`: `toggleEffect(e, settings.effects.e, false)`. -/
def applyEffect (R : Realm) (P : Page) (effect : JStr) : JS Unit := do
  let s ← getState
  let effects ← liftE (getStrict R s.settings (utf16 "effects"))
  let state ← liftE (getStrict R effects effect)
  toggleEffect R P effect state false

/-- The source function `applySettings` (lines 61-73). -/
def applySettings (R : Realm) (P : Page) : JS Unit := do
  let s ← getState
  let lang ← liftE (getStrict R s.settings (utf16 "language"))
  changeLanguage R P lang false
  let s ← getState
  let theme ← liftE (getStrict R s.settings (utf16 "theme"))
  changeTheme R P theme false
  applyEffect R P (utf16 "crt")
  applyEffect R P (utf16 "scanlines")
  applyEffect R P (utf16 "glitch")
  applyEffect R P (utf16 "grid")

/-- The source function `loadSettings` (lines 52-58). -/
def loadSettings (R : Realm) (P : Page) : JS Unit := do
  let s ← getState
  match s.stored with
  | none => pure ()
  | some saved =>
    if saved.truthy then
      let parsed ← liftE (parse saved)
      modifyState fun s => { s with settings := parsed }
      applySettings R P
    else
      pure ()

/-- The source function `resetSettings` (lines 82-96). -/
def resetSettings (R : Realm) (P : Page) : JS Unit := do
  modifyState fun s => { s with settings := defaultSettings }
  modifyState fun s => { s with stored := none }
  applySettings R P
  addLog R P (.str (utf16 "Settings reset to defaults"))

/-! ## Vocabulary of the properties -/

mutual
/-- JSON data: a value that `JSON.stringify` writes out unchanged (no
`undefined`, no host object, at any depth). -/
def isData : JSVal → Bool
  | .undefined => false
  | .host _ => false
  | .obj ps => isDataProps ps
  | _ => true
/-- All property values are JSON data. -/
def isDataProps : Props → Bool
  | .nil => true
  | .cons _ v rest => isData v && isDataProps rest
end

/-- Own property `k` of a plain object. -/
def ownGet (v : JSVal) (k : JStr) : Option JSVal :=
  match v with
  | .obj ps => ps.find k
  | _ => none

/-- The known effect names. -/
def effectNames : List JStr :=
  [utf16 "crt", utf16 "scanlines", utf16 "glitch", utf16 "grid"]

/-- A well-formed Settings value with language `l`, theme `t` and effect
states `eff`: JSON data with string fields `language` and `theme` and an
`effects` object holding a boolean for every known effect. -/
def IsSettings (x : JSVal) (l t : JStr) (eff : JStr → Bool) : Prop :=
  isData x = true ∧
  ownGet x (utf16 "language") = some (.str l) ∧
  ownGet x (utf16 "theme") = some (.str t) ∧
  ∀ e ∈ effectNames,
    (ownGet x (utf16 "effects")).bind (fun es => ownGet es e) = some (.bool (eff e))

/-- The Settings value written in the field order of the source literal. -/
def mkSettings (l t : JStr) (crt scanlines glitch grid : Bool) : JSVal :=
  .obj (Props.ofList
    [(utf16 "language", .str l),
     (utf16 "theme", .str t),
     (utf16 "effects", .obj (Props.ofList
        [(utf16 "crt", .bool crt),
         (utf16 "scanlines", .bool scanlines),
         (utf16 "glitch", .bool glitch),
         (utf16 "grid", .bool grid)]))])

/-- Effect states as a function of the effect name. -/
def effectsOf (crt scanlines glitch grid : Bool) (e : JStr) : Bool :=
  if e = utf16 "crt" then crt
  else if e = utf16 "scanlines" then scanlines
  else if e = utf16 "glitch" then glitch
  else grid

/-- `currentLanguage` mirrors `settings.language`: the settings are an
object whose own `language` is the current language. -/
def LangMirrors (s : State) : Prop :=
  ownGet s.settings (utf16 "language") = some s.currentLanguage

/-- The in-memory settings are a plain object. -/
def settingsIsObject (s : State) : Prop := ∃ ps, s.settings = .obj ps

/-- The page has a checkbox for every known effect. -/
def hasBoxes (boxes : List (JStr × Bool)) : Prop :=
  ∀ e ∈ effectNames, (findBox boxes (utf16 "toggle-" ++ e)).isSome = true

/-- Whether the page has the checkboxes can be computed. -/
instance decHasBoxes (boxes : List (JStr × Bool)) : Decidable (hasBoxes boxes) := by
  unfold hasBoxes
  exact inferInstance

/-- Nothing was persisted or logged between the two states, and the
translation table is the same. -/
def Unsaved (s s1 : State) : Prop :=
  s1.translations = s.translations ∧ s1.stored = s.stored ∧ s1.writes = s.writes ∧
    s1.log = s.log

/-- What may follow a class in the attribute: nothing, or whitespace. -/
def Boundary (rest : JStr) : Prop := rest = [] ∨ ∃ w r, rest = w :: r ∧ isWs w = true

/-- What the replacement does to one class: a marker disappears, anything
else stays. -/
def eraseMarker (tok : JStr) : JStr := if isThemeMarker tok then [] else tok

/-- A token set: nonempty classes without whitespace, no class twice. -/
def TokenSet (ts : List JStr) : Prop :=
  (∀ t ∈ ts, t ≠ [] ∧ ∀ u ∈ t, isWs u = false) ∧ ts.Nodup

/-- The token set after one effect line of `applySettings`: the marker
`tok` is removed when the effect is on and added when it is off. -/
def applyTok (enabled : Bool) (tok : JStr) (ts : List JStr) : List JStr :=
  if enabled then removeTok ts tok else addTok ts tok

/-- The computation keeps the property of the state, however it ends. -/
def Keeps {α : Type} (I : State → Prop) (m : JS α) : Prop := ∀ s, I s → I (m s).2

/-- The class attribute written by `changeTheme` for the theme `t`. -/
def themedClass (t cls : JStr) : JStr :=
  if t = utf16 "green" then stripTheme cls
  else serialize (addTok (tokens (stripTheme cls)) (utf16 "theme-" ++ t))

/-- The marker that `changeTheme` adds for the theme `t`. -/
def markerOf (t : JStr) : List JStr :=
  if t = utf16 "green" then [] else [utf16 "theme-" ++ t]

/-! ## A concrete page, used to instantiate the theorems -/

/-- A realm in which objects inherit `constructor` and strings inherit
`toUpperCase`, both host functions, and nothing else is inherited. -/
def sampleRealm : Realm where
  proto := fun k n =>
    if k = .object ∧ n = utf16 "constructor" then .host 0
    else if k = .string ∧ n = utf16 "toUpperCase" then .host 1
    else .undefined
  hostGet := fun _ _ => .undefined
  hostStr := fun _ => utf16 "function"
  hostJson := fun _ => .undefined

/-- A page with two language buttons, two theme buttons, the log container,
one translatable element and renderers that complete. -/
def samplePage : Page where
  ids := [utf16 "lang-es", utf16 "lang-en", utf16 "theme-green", utf16 "theme-amber",
    utf16 "systemLog"]
  i18n := [utf16 "logs.systemInit"]
  renders := fun _ _ => true

/-- The four effect checkboxes, all checked. -/
def sampleBoxes : List (JStr × Bool) :=
  [(utf16 "toggle-crt", true), (utf16 "toggle-scanlines", true),
   (utf16 "toggle-glitch", true), (utf16 "toggle-grid", true)]

/-- The translations of one language. -/
def sampleLanguage (saved init : String) : JSVal :=
  .obj (Props.ofList
    [(utf16 "settings", .obj (Props.ofList [(utf16 "settingsSaved", .str (utf16 saved))])),
     (utf16 "logs", .obj (Props.ofList [(utf16 "systemInit", .str (utf16 init))]))])

/-- A translation table with Spanish and English. -/
def sampleTable : JSVal :=
  .obj (Props.ofList
    [(utf16 "es", sampleLanguage "Ajustes guardados" "Sistema iniciado"),
     (utf16 "en", sampleLanguage "Settings saved" "System initialized")])

/-- The state after start-up with the table loaded and nothing persisted. -/
def sampleState : State :=
  { initialState none [] sampleBoxes with translations := sampleTable }

/-- The Settings value of the scenario of the specification: English, amber,
CRT off. -/
def sampleSettings : JSVal :=
  mkSettings (utf16 "en") (utf16 "amber") false true true true

/-! # Theorems -/

set_option linter.unusedVariables false

/-! ## Sequencing -/

theorem bind_run {α β : Type} (m : JS α) (f : α → JS β) (s : State) :
    (m >>= f) s = match m s with
      | (.ok a, s1) => f a s1
      | (.error e, s1) => (.error e, s1) := rfl

@[simp] theorem pure_run {α : Type} (a : α) (s : State) : (pure a : JS α) s = (.ok a, s) := rfl

@[simp] theorem pure_bind_run {α β : Type} (a : α) (f : α → JS β) (s : State) :
    ((pure a : JS α) >>= f) s = f a s := rfl

@[simp] theorem getState_bind {β : Type} (f : State → JS β) (s : State) :
    (getState >>= f) s = f s s := rfl

@[simp] theorem modifyState_bind {β : Type} (g : State → State) (f : Unit → JS β) (s : State) :
    (modifyState g >>= f) s = f () (g s) := rfl

@[simp] theorem modifyState_run (g : State → State) (s : State) :
    modifyState g s = (.ok (), g s) := rfl

@[simp] theorem liftE_bind {α β : Type} (r : Except Err α) (f : α → JS β) (s : State) :
    (liftE r >>= f) s = match r with
      | .ok a => f a s
      | .error e => (.error e, s) := by
  cases r <;> rfl

@[simp] theorem liftE_run {α : Type} (r : Except Err α) (s : State) : liftE r s = (r, s) := rfl

@[simp] theorem throwJS_run {α : Type} (e : Err) (s : State) :
    (throwJS e : JS α) s = (.error e, s) := rfl

@[simp] theorem guardJS_bind {β : Type} (c : Bool) (e : Err) (f : Unit → JS β) (s : State) :
    (guardJS c e >>= f) s = if c then f () s else (.error e, s) := by
  cases c <;> rfl

@[simp] theorem guardJS_run (c : Bool) (e : Err) (s : State) :
    guardJS c e s = (if c then .ok () else .error e, s) := by
  cases c <;> rfl

@[simp] theorem whenJS_true (m : JS Unit) : whenJS true m = m := rfl

@[simp] theorem whenJS_false (m : JS Unit) : whenJS false m = pure () := rfl

/-- A property of the final state of `m >>= f` follows from the two ways `m` can end. -/
theorem bind_state {α β : Type} (Q : State → Prop) (m : JS α) (f : α → JS β) (s : State)
    (hok : ∀ a s1, m s = (.ok a, s1) → Q (f a s1).2)
    (herr : ∀ e s1, m s = (.error e, s1) → Q s1) : Q ((m >>= f) s).2 := by
  rw [bind_run]
  split
  · rename_i a s1 h; exact hok a s1 h
  · rename_i e s1 h; exact herr e s1 h

/-- Sequencing after a normal completion. -/
theorem bind_ok {α β : Type} (m : JS α) (f : α → JS β) (s s1 : State) (a : α)
    (h : m s = (.ok a, s1)) : (m >>= f) s = f a s1 := by
  rw [bind_run, h]

/-- Sequencing after an exception. -/
theorem bind_error {α β : Type} (m : JS α) (f : α → JS β) (s s1 : State) (e : Err)
    (h : m s = (.error e, s1)) : (m >>= f) s = (.error e, s1) := by
  rw [bind_run, h]

@[simp] theorem js_bind_assoc {α β γ : Type} (m : JS α) (g : α → JS β) (f : β → JS γ) :
    (m >>= g) >>= f = m >>= fun a => g a >>= f := by
  funext s
  simp only [bind_run]
  rcases m s with ⟨r, s1⟩
  cases r <;> rfl

@[simp] theorem whenJS_bind {β : Type} (c : Bool) (m : JS Unit) (f : Unit → JS β) (s : State) :
    (whenJS c m >>= f) s = if c then (m >>= f) s else f () s := by
  cases c <;> rfl

@[simp] theorem whenJS_run (c : Bool) (m : JS Unit) (s : State) :
    whenJS c m s = if c then m s else (.ok (), s) := by
  cases c <;> rfl

theorem bind_pure_unit (m : JS Unit) : (m >>= fun _ => (pure () : JS Unit)) = m := by
  funext s
  simp only [bind_run]
  rcases m s with ⟨r, s1⟩
  cases r <;> rfl

/-! ## Class attribute -/

theorem themeLit : utf16 "theme-" = [116, 104, 101, 109, 101, 45] := by decide

theorem isWs_not_word (u : Nat) (h : isWs u = true) : isWord u = false := by
  simp only [isWs, Bool.or_eq_true, decide_eq_true_eq] at h
  rcases h with (((h | h) | h) | h) | h <;> subst h <;> decide

/-- A match cannot start where the text `theme-` does not. -/
theorem themeAt_false_of (l : JStr) (h : (utf16 "theme-").isPrefixOf l = false) :
    themeAt l = false := by
  simp [themeAt, h]

theorem hasThemeDash_cons (u : Nat) (tok : JStr) (h : hasThemeDash (u :: tok) = false) :
    (utf16 "theme-").isPrefixOf (u :: tok) = false ∧ hasThemeDash tok = false := by
  simp only [hasThemeDash, List.tails, List.any_cons, Bool.or_eq_false_iff] at h
  exact ⟨h.1, by simpa [hasThemeDash] using h.2⟩

theorem isPrefixOf_of_append (pat tok rest : JStr) (hpat : ∀ u ∈ pat, isWs u = false)
    (hrest : Boundary rest) (h : pat.isPrefixOf (tok ++ rest) = true) :
    pat.isPrefixOf tok = true := by
  induction pat generalizing tok with
  | nil => simp
  | cons a pat ih =>
    cases tok with
    | nil =>
      rcases hrest with rfl | ⟨w, r, rfl, hw⟩
      · simp at h
      · simp only [List.nil_append, List.isPrefixOf, Bool.and_eq_true, beq_iff_eq] at h
        have := hpat a (List.mem_cons_self _ _)
        rw [h.1, hw] at this
        cases this
    | cons b tok =>
      simp only [List.cons_append, List.isPrefixOf, Bool.and_eq_true, beq_iff_eq] at h ⊢
      exact ⟨h.1, ih tok (fun u hu => hpat u (List.mem_cons_of_mem _ hu)) h.2⟩

theorem themeLit_no_ws : ∀ u ∈ utf16 "theme-", isWs u = false := by decide

theorem stripGo_boundary (rest : JStr) (h : Boundary rest) :
    stripGo 0 true rest = stripGo 0 false rest := by
  rcases h with rfl | ⟨w, r, rfl, hw⟩
  · rfl
  · simp [stripGo, isWs_not_word w hw]

theorem stripGo_ws (w : Nat) (r : JStr) (hw : isWs w = true) :
    stripGo 0 false (w :: r) = w :: stripGo 0 false r := by
  have : themeAt (w :: r) = false := by
    apply themeAt_false_of
    simp only [isWs, Bool.or_eq_true, decide_eq_true_eq] at hw
    rcases hw with (((h | h) | h) | h) | h <;> subst h <;> simp [themeLit, List.isPrefixOf]
  simp [stripGo, this]

/-- A class free of `theme-` is copied unchanged. -/
theorem stripGo_free (tok rest : JStr) (htok : hasThemeDash tok = false) (hrest : Boundary rest) :
    stripGo 0 false (tok ++ rest) = tok ++ stripGo 0 false rest := by
  induction tok with
  | nil => rfl
  | cons u tok ih =>
    obtain ⟨h1, h2⟩ := hasThemeDash_cons u tok htok
    have h3 : themeAt (u :: (tok ++ rest)) = false := by
      apply themeAt_false_of
      by_contra hc
      have hc' : (utf16 "theme-").isPrefixOf ((u :: tok) ++ rest) = true := by
        simpa using hc
      have := isPrefixOf_of_append _ _ _ themeLit_no_ws hrest hc'
      rw [h1] at this
      cases this
    simp [stripGo, h3, ih h2]

theorem stripGo_word (w rest : JStr) (hw : w.all isWord = true) :
    stripGo 0 true (w ++ rest) = stripGo 0 true rest := by
  induction w with
  | nil => rfl
  | cons u w ih =>
    simp only [List.all_cons, Bool.and_eq_true] at hw
    simp [stripGo, hw.1, ih hw.2]

theorem stripGo_skip (n : Nat) (b : Bool) (u : Nat) (l : JStr) :
    stripGo (n + 1) b (u :: l) = stripGo n b l := rfl

theorem stripGo_start (u : Nat) (l : JStr) (h : themeAt (u :: l) = true) :
    stripGo 0 false (u :: l) = stripGo 5 true l := by
  simp [stripGo, h]

/-- A theme marker is deleted. -/
theorem stripGo_marker (w rest : JStr) (hw : isWordStr w = true) (hrest : Boundary rest) :
    stripGo 0 false (utf16 "theme-" ++ w ++ rest) = stripGo 0 false rest := by
  simp only [isWordStr, Bool.and_eq_true, Bool.not_eq_true', List.isEmpty_eq_false] at hw
  obtain ⟨hne, hall⟩ := hw
  cases w with
  | nil => simp at hne
  | cons u w =>
    have hu : isWord u = true := by simp at hall; exact hall.1
    have hat : themeAt (utf16 "theme-" ++ (u :: w) ++ rest) = true := by
      simp [themeAt, themeLit, List.isPrefixOf, hu]
    rw [themeLit] at hat ⊢
    simp only [List.cons_append, List.nil_append] at hat ⊢
    rw [stripGo_start _ _ hat, stripGo_skip, stripGo_skip, stripGo_skip, stripGo_skip, stripGo_skip]
    have := stripGo_word (u :: w) rest hall
    simp only [List.cons_append] at this
    rw [this, stripGo_boundary rest hrest]

theorem isThemeMarker_iff (tok : JStr) :
    isThemeMarker tok = true ↔ ∃ w, tok = utf16 "theme-" ++ w ∧ isWordStr w = true := by
  constructor
  · intro h
    simp only [isThemeMarker, Bool.and_eq_true] at h
    obtain ⟨h1, h2⟩ := h
    rw [List.isPrefixOf_iff_prefix] at h1
    obtain ⟨w, rfl⟩ := h1
    refine ⟨w, rfl, ?_⟩
    have : (utf16 "theme-" ++ w).drop 6 = w := by
      rw [themeLit]; rfl
    rw [this] at h2
    exact h2
  · rintro ⟨w, rfl, hw⟩
    have : (utf16 "theme-" ++ w).drop 6 = w := by
      rw [themeLit]; rfl
    simp only [isThemeMarker, this, hw, Bool.and_true]
    rw [List.isPrefixOf_iff_prefix]
    exact List.prefix_append _ _

theorem word_no_ws (w : JStr) (h : w.all isWord = true) : ∀ u ∈ w, isWs u = false := by
  intro u hu
  have := List.all_eq_true.mp h u hu
  by_contra hc
  rw [Bool.not_eq_false] at hc
  rw [isWs_not_word u hc] at this
  cases this

theorem marker_no_ws (tok : JStr) (h : isThemeMarker tok = true) : ∀ u ∈ tok, isWs u = false := by
  obtain ⟨w, rfl, hw⟩ := (isThemeMarker_iff tok).mp h
  simp only [isWordStr, Bool.and_eq_true] at hw
  intro u hu
  rcases List.mem_append.mp hu with h1 | h1
  · exact themeLit_no_ws u h1
  · exact word_no_ws w hw.2 u h1

theorem marker_has_dash (tok : JStr) (h : isThemeMarker tok = true) : hasThemeDash tok = true := by
  simp only [isThemeMarker, Bool.and_eq_true] at h
  cases tok with
  | nil => simp [themeLit, List.isPrefixOf] at h
  | cons u tok => simp [hasThemeDash, List.tails, h.1]

/-- On one class followed by a boundary the scanner acts as `eraseMarker`. -/
theorem stripGo_class (tok rest : JStr) (h : (isThemeMarker tok || !hasThemeDash tok) = true)
    (hrest : Boundary rest) :
    stripGo 0 false (tok ++ rest) = eraseMarker tok ++ stripGo 0 false rest := by
  unfold eraseMarker
  by_cases hm : isThemeMarker tok = true
  · obtain ⟨w, rfl, hw⟩ := (isThemeMarker_iff tok).mp hm
    simp only [hm, if_true, List.nil_append]
    exact stripGo_marker w rest hw hrest
  · have hd : hasThemeDash tok = false := by
      simpa [hm] using h
    simp only [hm]
    exact stripGo_free tok rest hd hrest

theorem stripGo_drop (n : Nat) (w : Bool) (l : JStr) :
    stripGo n w l = stripGo 0 w (l.drop n) := by
  induction n generalizing l with
  | zero => rfl
  | succ n ih =>
    cases l with
    | nil => rfl
    | cons u l => rw [stripGo_skip, ih]; rfl

theorem stripGo_dropWhile (l : JStr) :
    stripGo 0 true l = stripGo 0 false (l.dropWhile isWord) := by
  induction l with
  | nil => rfl
  | cons u l ih =>
    by_cases hu : isWord u = true
    · simp [stripGo, hu, ih, List.dropWhile]
    · simp [stripGo, hu, List.dropWhile]

/-- The one-pass machine computes the replacement. -/
theorem replaceGo_eq_stripGo (fuel : Nat) (l : JStr) (h : l.length ≤ fuel) :
    replaceGo fuel l = stripGo 0 false l := by
  induction fuel generalizing l with
  | zero =>
    cases l with
    | nil => rfl
    | cons u l => simp at h
  | succ fuel ih =>
    cases l with
    | nil => rfl
    | cons u l =>
      have hl : l.length ≤ fuel := by simpa using h
      by_cases hat : themeAt (u :: l) = true
      · have hshort : ((l.drop 5).dropWhile isWord).length ≤ fuel :=
          le_trans (List.dropWhile_sublist isWord).length_le
            (le_trans (List.drop_sublist 5 l).length_le hl)
        rw [replaceGo, if_pos hat, ih _ hshort, stripGo_start u l hat, stripGo_drop 5 true l,
          stripGo_dropWhile]
      · rw [replaceGo, if_neg hat, ih _ hl]
        simp [stripGo, hat]

theorem stripTheme_eq_stripGo (c : JStr) : stripTheme c = stripGo 0 false c :=
  replaceGo_eq_stripGo _ c (le_refl _)

/-- Induction over a class attribute, one class at a time. -/
theorem ws_induction (Q : JStr → Prop)
    (base : ∀ tok, (∀ u ∈ tok, isWs u = false) → Q tok)
    (step : ∀ tok w r, (∀ u ∈ tok, isWs u = false) → isWs w = true → Q r → Q (tok ++ w :: r))
    (c : JStr) : Q c := by
  suffices h : ∀ tok, (∀ u ∈ tok, isWs u = false) → Q (tok ++ c) from h [] (by simp)
  induction c with
  | nil => intro tok htok; simpa using base tok htok
  | cons u c ih =>
    intro tok htok
    by_cases hu : isWs u = true
    · exact step tok u c htok hu (by simpa using ih [] (by simp))
    · have := ih (tok ++ [u]) (by
        intro x hx
        rcases List.mem_append.mp hx with h | h
        · exact htok x h
        · simp at h; subst h; simpa using hu)
      simpa using this

theorem splitWs_single (tok : JStr) (h : ∀ u ∈ tok, isWs u = false) :
    tok.splitOnP isWs = [tok] :=
  List.splitOnP_eq_single isWs tok (fun x hx => by simp [h x hx])

theorem splitWs_first (tok : JStr) (w : Nat) (r : JStr) (h : ∀ u ∈ tok, isWs u = false)
    (hw : isWs w = true) : (tok ++ w :: r).splitOnP isWs = tok :: r.splitOnP isWs :=
  List.splitOnP_first isWs tok (fun x hx => by simp [h x hx]) w hw r

theorem eraseMarker_no_ws (tok : JStr) (h : ∀ u ∈ tok, isWs u = false) :
    ∀ u ∈ eraseMarker tok, isWs u = false := by
  unfold eraseMarker
  split
  · simp
  · exact h

theorem cleanClasses_single (tok : JStr) (h : ∀ u ∈ tok, isWs u = false) :
    cleanClasses tok = (isThemeMarker tok || !hasThemeDash tok) := by
  simp [cleanClasses, splitWs_single tok h]

theorem cleanClasses_first (tok : JStr) (w : Nat) (r : JStr) (h : ∀ u ∈ tok, isWs u = false)
    (hw : isWs w = true) :
    cleanClasses (tok ++ w :: r) = ((isThemeMarker tok || !hasThemeDash tok) && cleanClasses r) := by
  simp [cleanClasses, splitWs_first tok w r h hw]

/-- On an attribute whose classes are markers or free of `theme-`, the
replacement deletes the markers class by class. -/
theorem splitWs_stripTheme (c : JStr) (hc : cleanClasses c = true) :
    (stripTheme c).splitOnP isWs = (c.splitOnP isWs).map eraseMarker := by
  rw [stripTheme_eq_stripGo]
  revert hc
  refine ws_induction (fun c => cleanClasses c = true →
    (stripGo 0 false c).splitOnP isWs = (c.splitOnP isWs).map eraseMarker) ?_ ?_ c
  · intro tok htok hc
    rw [cleanClasses_single tok htok] at hc
    have := stripGo_class tok [] hc (Or.inl rfl)
    simp only [List.append_nil] at this
    rw [this, splitWs_single tok htok]
    have e : stripGo 0 false [] = [] := rfl
    rw [e, List.append_nil, splitWs_single _ (eraseMarker_no_ws tok htok)]
    rfl
  · intro tok w r htok hw ih hc
    rw [cleanClasses_first tok w r htok hw, Bool.and_eq_true] at hc
    rw [stripGo_class tok (w :: r) hc.1 (Or.inr ⟨w, r, rfl, hw⟩), stripGo_ws w r hw,
      splitWs_first _ w _ (eraseMarker_no_ws tok htok) hw, splitWs_first tok w r htok hw,
      ih hc.2]
    rfl

theorem mem_uniq (x : JStr) (l : List JStr) : x ∈ uniq l ↔ x ∈ l := by
  induction l with
  | nil => simp [uniq]
  | cons t ts ih =>
    simp only [uniq, List.mem_cons, List.mem_filter, ih, bne_iff_ne, ne_eq]
    constructor
    · rintro (h | ⟨h, -⟩)
      · exact Or.inl h
      · exact Or.inr h
    · rintro (h | h)
      · exact Or.inl h
      · by_cases e : x = t
        · exact Or.inl e
        · exact Or.inr ⟨h, e⟩

theorem nodup_uniq (l : List JStr) : (uniq l).Nodup := by
  induction l with
  | nil => simp [uniq]
  | cons t ts ih =>
    simp only [uniq, List.nodup_cons, List.mem_filter, bne_self_eq_false, Bool.false_eq_true,
      and_false, not_false_eq_true, true_and]
    exact ih.filter _

theorem uniq_of_nodup (l : List JStr) (h : l.Nodup) : uniq l = l := by
  induction l with
  | nil => rfl
  | cons t ts ih =>
    rw [List.nodup_cons] at h
    rw [uniq, ih h.2, List.filter_eq_self.mpr]
    intro x hx
    simp only [bne_iff_ne, ne_eq]
    rintro rfl
    exact h.1 hx

theorem uniq_filter (p : JStr → Bool) (l : List JStr) :
    uniq (l.filter p) = (uniq l).filter p := by
  induction l with
  | nil => rfl
  | cons t ts ih =>
    by_cases hp : p t = true
    · simp only [List.filter_cons, hp, if_true, uniq, ih, List.filter_filter]
      congr 1
      apply List.filter_congr
      intro x _
      exact Bool.and_comm _ _
    · simp only [List.filter_cons, hp, uniq, ih, List.filter_filter]
      simp only [Bool.false_eq_true, if_false]
      rw [ih]
      apply List.filter_congr
      intro x _
      by_cases hx : p x = true
      · have : x ≠ t := by rintro rfl; exact hp hx
        simp [hx, this]
      · simp [hx]

/-- Every class of an attribute is free of whitespace. -/
theorem splitWs_no_ws (c : JStr) : ∀ tok ∈ c.splitOnP isWs, ∀ u ∈ tok, isWs u = false := by
  refine ws_induction (fun c => ∀ tok ∈ c.splitOnP isWs, ∀ u ∈ tok, isWs u = false) ?_ ?_ c
  · intro tok htok t ht
    rw [splitWs_single tok htok] at ht
    simp at ht; subst ht; exact htok
  · intro tok w r htok hw ih t ht
    rw [splitWs_first tok w r htok hw] at ht
    rcases List.mem_cons.mp ht with rfl | h
    · exact htok
    · exact ih t h

theorem mem_tokens (c : JStr) (t : JStr) :
    t ∈ tokens c ↔ t ∈ c.splitOnP isWs ∧ t ≠ [] := by
  simp [tokens, mem_uniq, List.mem_filter]

theorem tokens_no_ws (c : JStr) : ∀ t ∈ tokens c, ∀ u ∈ t, isWs u = false := fun t ht =>
  splitWs_no_ws c t ((mem_tokens c t).mp ht).1

theorem tokens_ne_nil (c : JStr) : ∀ t ∈ tokens c, t ≠ [] := fun t ht =>
  ((mem_tokens c t).mp ht).2

theorem tokens_nodup (c : JStr) : (tokens c).Nodup := nodup_uniq _

theorem tokenSet_tokens (c : JStr) : TokenSet (tokens c) :=
  ⟨fun t ht => ⟨tokens_ne_nil c t ht, tokens_no_ws c t ht⟩, tokens_nodup c⟩

theorem serialize_cons_cons (t t1 : JStr) (ts : List JStr) :
    serialize (t :: t1 :: ts) = t ++ 32 :: serialize (t1 :: ts) := rfl

theorem splitWs_serialize (ts : List JStr) (hne : ts ≠ [])
    (h : ∀ t ∈ ts, ∀ u ∈ t, isWs u = false) : (serialize ts).splitOnP isWs = ts := by
  induction ts with
  | nil => exact absurd rfl hne
  | cons t ts ih =>
    cases ts with
    | nil => exact splitWs_single t (h t (by simp))
    | cons t1 ts =>
      rw [serialize_cons_cons, splitWs_first t 32 _ (h t (by simp)) (by decide),
        ih (by simp) (fun x hx => h x (List.mem_cons_of_mem _ hx))]

/-- Reading back a serialised token set gives the token set. -/
theorem tokens_serialize (ts : List JStr) (h : TokenSet ts) : tokens (serialize ts) = ts := by
  cases ts with
  | nil => decide
  | cons t ts =>
    unfold tokens
    rw [splitWs_serialize _ (by simp) (fun x hx => (h.1 x hx).2), List.filter_eq_self.mpr,
      uniq_of_nodup _ h.2]
    intro x hx
    have := (h.1 x hx).1
    cases x with
    | nil => exact absurd rfl this
    | cons _ _ => rfl

theorem tokenSet_addTok (ts : List JStr) (tok : JStr) (h : TokenSet ts) (hne : tok ≠ [])
    (hws : ∀ u ∈ tok, isWs u = false) : TokenSet (addTok ts tok) := by
  unfold addTok
  split
  · exact h
  · rename_i hmem
    refine ⟨?_, ?_⟩
    · intro t ht
      rcases List.mem_append.mp ht with h1 | h1
      · exact h.1 t h1
      · simp at h1; subst h1; exact ⟨hne, hws⟩
    · rw [List.nodup_append]
      refine ⟨h.2, by simp, ?_⟩
      intro a ha hb
      simp at hb; subst hb
      exact hmem ha

theorem tokenSet_removeTok (ts : List JStr) (tok : JStr) (h : TokenSet ts) :
    TokenSet (removeTok ts tok) :=
  ⟨fun t ht => h.1 t (List.mem_filter.mp ht).1, h.2.filter _⟩

theorem tokenSet_filter (ts : List JStr) (p : JStr → Bool) (h : TokenSet ts) :
    TokenSet (ts.filter p) :=
  ⟨fun t ht => h.1 t (List.mem_filter.mp ht).1, h.2.filter _⟩

/-- The tokens left by the replacement: the classes that are not theme markers. -/
theorem tokens_stripTheme (c : JStr) (hc : cleanClasses c = true) :
    tokens (stripTheme c) = (tokens c).filter (fun t => !isThemeMarker t) := by
  unfold tokens
  rw [splitWs_stripTheme c hc, ← uniq_filter]
  congr 1
  induction c.splitOnP isWs with
  | nil => rfl
  | cons t ts ih =>
    simp only [List.map_cons, List.filter_cons, ih]
    by_cases hm : isThemeMarker t = true
    · have : t.isEmpty = false := by
        have := marker_has_dash t hm
        cases t with
        | nil => simp [hasThemeDash, List.tails, themeLit, List.isPrefixOf] at this
        | cons _ _ => rfl
      simp [eraseMarker, hm, this]
    · simp only [eraseMarker, hm]
      by_cases he : t.isEmpty = true
      · simp [he]
      · simp [he, hm]

/-! ## Objects and JSON data -/

/-- Induction over the own properties of an object. -/
theorem Props.induct (motive : Props → Prop) (nil : motive .nil)
    (cons : ∀ k v rest, motive rest → motive (.cons k v rest)) : ∀ ps, motive ps
  | .nil => nil
  | .cons k v rest => cons k v rest (Props.induct motive nil cons rest)

theorem find_replace_self (ps : Props) (q : JStr) (v w : JSVal) (h : ps.find q = some v) :
    (ps.replace q w).find q = some w := by
  induction ps using Props.induct with
  | nil => simp [Props.find] at h
  | cons k u rest ih =>
    simp only [Props.find, Props.replace] at h ⊢
    split
    · simp [Props.find, *]
    · simp_all [Props.find]

theorem find_replace_other (ps : Props) (q k : JStr) (w : JSVal) (h : k ≠ q) :
    (ps.replace q w).find k = ps.find k := by
  induction ps using Props.induct with
  | nil => rfl
  | cons k1 u rest ih =>
    simp only [Props.replace]
    split
    · rename_i e
      subst e
      simp [Props.find, Ne.symm h]
    · simp [Props.find, ih]

theorem replace_same (ps : Props) (q : JStr) (v : JSVal) (h : ps.find q = some v) :
    ps.replace q v = ps := by
  induction ps using Props.induct with
  | nil => rfl
  | cons k u rest ih =>
    simp only [Props.find, Props.replace] at h ⊢
    split
    · simp_all
    · simp_all

theorem find_push_self (ps : Props) (q : JStr) (w : JSVal) (h : ps.find q = none) :
    (ps.push q w).find q = some w := by
  induction ps using Props.induct with
  | nil => simp [Props.push, Props.find]
  | cons k u rest ih =>
    simp only [Props.find] at h
    split at h
    · cases h
    · simp [Props.push, Props.find, *]

theorem find_push_other (ps : Props) (q k : JStr) (w : JSVal) (h : k ≠ q) :
    (ps.push q w).find k = ps.find k := by
  induction ps using Props.induct with
  | nil => simp [Props.push, Props.find, Ne.symm h]
  | cons k1 u rest ih => simp [Props.push, Props.find, ih]

theorem find_assign_self (ps : Props) (q : JStr) (w : JSVal) (hq : q ≠ utf16 "__proto__") :
    (ps.assign q w).find q = some w := by
  unfold Props.assign
  cases h : ps.find q with
  | none => simp [hq, find_push_self ps q w h]
  | some v => simp [find_replace_self ps q v w h]

theorem find_assign_other (ps : Props) (q k : JStr) (w : JSVal) (h : k ≠ q) :
    (ps.assign q w).find k = ps.find k := by
  unfold Props.assign
  cases hf : ps.find q with
  | none =>
    simp only
    split
    · rfl
    · exact find_push_other ps q k w h
  | some v => exact find_replace_other ps q k w h

theorem assign_same (ps : Props) (q : JStr) (v : JSVal) (h : ps.find q = some v) :
    ps.assign q v = ps := by
  simp [Props.assign, h, replace_same ps q v h]

theorem assign_of_find (ps : Props) (q : JStr) (v w : JSVal) (h : ps.find q = some v) :
    ps.assign q w = ps.replace q w := by
  simp [Props.assign, h]

theorem isDataProps_replace (ps : Props) (q : JStr) (w : JSVal) (h : isDataProps ps = true)
    (hw : isData w = true) : isDataProps (ps.replace q w) = true := by
  induction ps using Props.induct with
  | nil => rfl
  | cons k u rest ih =>
    simp only [isDataProps, Bool.and_eq_true] at h
    simp only [Props.replace]
    split
    · simp [isDataProps, hw, h.2]
    · simp [isDataProps, h.1, ih h.2]

theorem isData_find (ps : Props) (k : JStr) (v : JSVal) (h : isDataProps ps = true)
    (hf : ps.find k = some v) : isData v = true := by
  induction ps using Props.induct with
  | nil => simp [Props.find] at hf
  | cons k1 u rest ih =>
    simp only [isDataProps, Bool.and_eq_true] at h
    simp only [Props.find] at hf
    split at hf
    · cases hf; exact h.1
    · exact ih h.2 hf

mutual
theorem jsonOf_data (R : Realm) : ∀ v : JSVal, isData v = true → jsonOf R v = v
  | .undefined, h => by simp [isData] at h
  | .null, _ => rfl
  | .bool _, _ => rfl
  | .num _, _ => rfl
  | .str _, _ => rfl
  | .host _, h => by simp [isData] at h
  | .obj ps, h => by
    simp only [isData] at h
    simp [jsonOf, jsonProps_data R ps h]
theorem jsonProps_data (R : Realm) : ∀ ps : Props, isDataProps ps = true → jsonProps R ps = ps
  | .nil, _ => rfl
  | .cons k v rest, h => by
    simp only [isDataProps, Bool.and_eq_true] at h
    have h1 := jsonOf_data R v h.1
    have h2 := jsonProps_data R rest h.2
    have hv : v ≠ .undefined := by rintro rfl; simp [isData] at h
    simp only [jsonProps, h1, h2]
end

theorem stringify_data (R : Realm) (v : JSVal) (h : isData v = true) :
    stringify R v = .json v := by
  have hv : v ≠ .undefined := by rintro rfl; simp [isData] at h
  simp only [stringify, jsonOf_data R v h]

/-! ## The operations -/

/-- Run `m`, then `saveSettings` if `m` completed. -/
theorem changeLanguage_true (R : Realm) (P : Page) (lang : JSVal) (s : State) :
    changeLanguage R P lang true s =
      (changeLanguage R P lang false >>= fun _ => saveSettings R P) s := by
  rw [bind_run]
  simp only [changeLanguage, modifyState_bind, getState_bind, liftE_bind, guardJS_bind,
    whenJS_false, whenJS_true, pure_run]
  repeat' split
  all_goals simp_all

theorem changeTheme_true (R : Realm) (P : Page) (theme : JSVal) (s : State) :
    changeTheme R P theme true s =
      (changeTheme R P theme false >>= fun _ => saveSettings R P) s := by
  rw [bind_run]
  simp only [changeTheme, modifyState_bind, getState_bind, liftE_bind, guardJS_bind,
    whenJS_false, whenJS_true, pure_run, whenJS, bind_run, modifyState_run, liftE_run]
  repeat' split
  all_goals simp_all

/-- What `changeLanguage` without saving does to the state, however it ends. -/
theorem changeLanguage_state (R : Realm) (P : Page) (lang : JSVal) (s : State) :
    (changeLanguage R P lang false s).2 =
      { s with currentLanguage := lang,
               settings := match assignIn s.settings (utf16 "language") lang with
                 | .ok v => v
                 | .error _ => s.settings } := by
  simp only [changeLanguage, modifyState_bind, getState_bind, liftE_bind, guardJS_bind,
    whenJS_false, pure_run]
  repeat' split
  all_goals simp_all

theorem toggleEffect_true (R : Realm) (P : Page) (effect : JStr) (state : JSVal) (s : State) :
    toggleEffect R P effect state true s =
      (toggleEffect R P effect state false >>= fun _ => saveSettings R P) s := by
  rw [bind_run]
  simp only [toggleEffect, getState_bind, whenJS_false, whenJS_true, bind_run, pure_run]
  repeat' split
  all_goals simp_all

/-- What `addLog` leaves alone: everything but the log. -/
theorem addLog_frame (R : Realm) (P : Page) (message : JSVal) (s : State) :
    (addLog R P message s).2 = { s with log := (addLog R P message s).2.log } := by
  simp only [addLog]
  split
  · simp only [liftE_bind]
    split <;> rfl
  · rfl

/-- What `saveSettings` does to the state, however it ends. -/
theorem saveSettings_frame (R : Realm) (P : Page) (s : State) :
    (saveSettings R P s).2 =
      { s with stored := some (stringify R s.settings),
               writes := s.writes ++ [stringify R s.settings],
               log := (saveSettings R P s).2.log } := by
  simp only [saveSettings, modifyState_bind, getState_bind, liftE_bind]
  repeat' split
  all_goals first
    | rfl
    | (rw [addLog_frame])

/-- What `changeTheme` without saving does to the state, however it ends. -/
theorem changeTheme_frame (R : Realm) (P : Page) (theme : JSVal) (s : State) :
    (changeTheme R P theme false s).2 =
      { s with settings := (match assignIn s.settings (utf16 "theme") theme with
                 | .ok v => v
                 | .error _ => s.settings),
               bodyClass := (changeTheme R P theme false s).2.bodyClass } := by
  simp only [changeTheme, modifyState_bind, getState_bind, liftE_bind, guardJS_bind,
    whenJS_false, pure_run, whenJS_bind, js_bind_assoc, pure_bind_run]
  repeat' split
  all_goals simp_all

/-- The body of `if (checkbox)`, step by step. -/
theorem toggleBox_run (R : Realm) (effect : JStr) (state : JSVal) (old : Bool) (s : State) :
    toggleBox R effect state old s =
      (match assignEffect R s.settings effect (checkedOf state old) with
        | .error e => (.error e,
            { s with boxes := setBox s.boxes (utf16 "toggle-" ++ effect) (checkedOf state old) })
        | .ok v =>
          match (if checkedOf state old = true
              then classRemove s.bodyClass (utf16 "no-" ++ effect)
              else classAdd s.bodyClass (utf16 "no-" ++ effect)) with
          | .error e => (.error e,
              { s with boxes := setBox s.boxes (utf16 "toggle-" ++ effect) (checkedOf state old),
                       settings := v })
          | .ok cls => (.ok (),
              { s with boxes := setBox s.boxes (utf16 "toggle-" ++ effect) (checkedOf state old),
                       settings := v, bodyClass := cls })) := by
  simp only [toggleBox, modifyState_bind, getState_bind, liftE_bind, modifyState_run]
  repeat' split
  all_goals simp_all

/-- Without saving, `toggleEffect` is the body of `if (checkbox)` or nothing. -/
theorem toggleEffect_false (R : Realm) (P : Page) (effect : JStr) (state : JSVal) (s : State) :
    toggleEffect R P effect state false s =
      (match findBox s.boxes (utf16 "toggle-" ++ effect) with
        | some old => toggleBox R effect state old s
        | none => (.ok (), s)) := by
  simp only [toggleEffect, getState_bind, whenJS_false]
  cases findBox s.boxes (utf16 "toggle-" ++ effect) with
  | none => rfl
  | some old => simp only [bind_pure_unit]

/-- What `toggleEffect` without saving does to the state, however it ends. -/
theorem toggleEffect_frame (R : Realm) (P : Page) (effect : JStr) (state : JSVal) (s : State) :
    (toggleEffect R P effect state false s).2 =
      { s with settings := (toggleEffect R P effect state false s).2.settings,
               bodyClass := (toggleEffect R P effect state false s).2.bodyClass,
               boxes := (toggleEffect R P effect state false s).2.boxes } := by
  rw [toggleEffect_false]
  cases findBox s.boxes (utf16 "toggle-" ++ effect) with
  | none => rfl
  | some old =>
    simp only [toggleBox_run]
    repeat' split
    all_goals simp_all

/-- The settings after `toggleEffect`: unchanged, or the result of the
assignment `settings.effects[effect] = checked`. -/
theorem toggleEffect_settings (R : Realm) (P : Page) (effect : JStr) (state : JSVal)
    (s : State) :
    (toggleEffect R P effect state false s).2.settings = s.settings ∨
      ∃ old, findBox s.boxes (utf16 "toggle-" ++ effect) = some old ∧
        assignEffect R s.settings effect (checkedOf state old)
          = .ok (toggleEffect R P effect state false s).2.settings := by
  rw [toggleEffect_false]
  cases hb : findBox s.boxes (utf16 "toggle-" ++ effect) with
  | none => left; rfl
  | some old =>
    simp only [toggleBox_run]
    cases ha : assignEffect R s.settings effect (checkedOf state old) with
    | error e => left; rfl
    | ok v =>
      right
      refine ⟨old, rfl, ?_⟩
      simp only
      split <;> exact ha

/-! ## Settings values -/

theorem assignIn_same (x : JSVal) (k : JStr) (v : JSVal) (h : ownGet x k = some v) :
    assignIn x k v = .ok x := by
  cases x <;> simp [ownGet] at h
  simp [assignIn, assign_same _ k v h]

theorem assignIn_language (x x1 : JSVal) (k : JStr) (v : JSVal) (hk : utf16 "language" ≠ k)
    (h : assignIn x k v = .ok x1) :
    ownGet x1 (utf16 "language") = ownGet x (utf16 "language") := by
  cases x <;> simp [assignIn] at h <;> subst h <;> try rfl
  simp [ownGet, find_assign_other _ k _ v hk]

theorem assignEffect_language (R : Realm) (x x1 : JSVal) (e : JStr) (c : Bool)
    (h : assignEffect R x e c = .ok x1) :
    ownGet x1 (utf16 "language") = ownGet x (utf16 "language") := by
  unfold assignEffect at h
  cases hg : getStrict R x (utf16 "effects") with
  | error err => simp [hg, bind, Except.bind] at h
  | ok effects =>
    cases ha : assignIn effects e (.bool c) with
    | error err => simp [hg, ha, bind, Except.bind] at h
    | ok effects1 =>
      simp only [hg, ha, bind, Except.bind] at h
      cases x <;> simp only [pure, Except.pure, Except.ok.injEq] at h <;> try (subst h; rfl)
      rename_i ps
      cases hf : ps.find (utf16 "effects") with
      | none => simp only [hf, Except.ok.injEq] at h; subst h; rfl
      | some w =>
        simp only [hf, Except.ok.injEq] at h
        subst h
        simp [ownGet, find_replace_other _ (utf16 "effects") (utf16 "language") _ (by decide)]

/-- The shape of a well-formed Settings value. -/
theorem IsSettings.shape {x : JSVal} {l t : JStr} {eff : JStr → Bool}
    (h : IsSettings x l t eff) :
    ∃ ps es, x = .obj ps ∧ ps.find (utf16 "effects") = some (.obj es) ∧
      isDataProps ps = true ∧ isDataProps es = true ∧
      ps.find (utf16 "language") = some (.str l) ∧ ps.find (utf16 "theme") = some (.str t) ∧
      ∀ e ∈ effectNames, es.find e = some (.bool (eff e)) := by
  obtain ⟨hd, hl, ht, he⟩ := h
  cases x <;> simp [ownGet] at hl
  rename_i ps
  have h1 := he (utf16 "crt") (by decide)
  simp only [ownGet] at h1 he ht
  cases hf : ps.find (utf16 "effects") with
  | none => simp [hf] at h1
  | some w =>
    simp only [hf, Option.some_bind] at h1 he
    cases w <;> simp [ownGet] at h1
    rename_i es
    simp only [isData] at hd
    have hes := isData_find ps _ _ hd hf
    simp only [isData] at hes
    exact ⟨ps, es, rfl, hf, hd, hes, hl, ht, fun e hmem => by simpa [ownGet] using he e hmem⟩

/-- Assigning one known effect of a well-formed Settings value. -/
theorem assignEffect_settings (R : Realm) (x : JSVal) (l t : JStr) (eff : JStr → Bool)
    (hx : IsSettings x l t eff) (e : JStr) (he : e ∈ effectNames) (b : Bool) :
    ∃ x1, assignEffect R x e b = .ok x1 ∧ IsSettings x1 l t (Function.update eff e b) ∧
      (b = eff e → x1 = x) := by
  obtain ⟨ps, es, rfl, hes, hdp, hde, hl, ht, hall⟩ := hx.shape
  refine ⟨.obj (ps.replace (utf16 "effects") (.obj (es.replace e (.bool b)))), ?_, ?_, ?_⟩
  · simp [assignEffect, getStrict, getProp, hes, assignIn, bind, Except.bind, pure, Except.pure,
      assign_of_find es e _ (.bool b) (hall e he)]
  · refine ⟨?_, ?_, ?_, ?_⟩
    · simp only [isData]
      exact isDataProps_replace _ _ _ hdp (by
        simp only [isData]
        exact isDataProps_replace _ _ _ hde rfl)
    · simp [ownGet, find_replace_other _ (utf16 "effects") (utf16 "language") _ (by decide), hl]
    · simp [ownGet, find_replace_other _ (utf16 "effects") (utf16 "theme") _ (by decide), ht]
    · intro e1 he1
      simp only [ownGet, find_replace_self _ _ _ _ hes, Option.some_bind]
      by_cases h : e1 = e
      · subst h
        simp [find_replace_self _ _ _ _ (hall e1 he)]
      · simp [find_replace_other _ e e1 _ h, hall e1 he1, Function.update, h]
  · intro hb
    subst hb
    rw [replace_same es e _ (hall e he), replace_same ps _ _ hes]

theorem isSettings_mk (l t : JStr) (a b c d : Bool) :
    IsSettings (mkSettings l t a b c d) l t (effectsOf a b c d) := by
  refine ⟨by cases a <;> cases b <;> cases c <;> cases d <;> rfl, ?_, ?_, ?_⟩
  · simp [mkSettings, Props.ofList, ownGet, Props.find]
  · simp [mkSettings, Props.ofList, ownGet, Props.find]
    intro h; exact absurd h (by decide)
  · intro e he
    simp only [effectNames, List.mem_cons, List.mem_singleton, List.not_mem_nil, or_false] at he
    rcases he with rfl | rfl | rfl | rfl <;> rfl

/-! ## Properties kept by the operations -/

theorem keeps_bind {α β : Type} (I : State → Prop) (m : JS α) (f : α → JS β)
    (hm : Keeps I m) (hf : ∀ a, Keeps I (f a)) : Keeps I (m >>= f) := by
  intro s hs
  apply bind_state I
  · intro a s1 h
    have := hm s hs
    rw [h] at this
    exact hf a s1 this
  · intro e s1 h
    have := hm s hs
    rw [h] at this
    exact this

theorem keeps_pure {α : Type} (I : State → Prop) (a : α) : Keeps I (pure a : JS α) :=
  fun _ hs => hs

theorem keeps_liftE {α : Type} (I : State → Prop) (r : Except Err α) : Keeps I (liftE r) :=
  fun _ hs => hs

theorem keeps_getState (I : State → Prop) : Keeps I getState := fun _ hs => hs

theorem keeps_whenJS (I : State → Prop) (c : Bool) (m : JS Unit) (h : Keeps I m) :
    Keeps I (whenJS c m) := by
  cases c
  · exact keeps_pure I ()
  · exact h

theorem keeps_changeLanguage_unsaved (R : Realm) (P : Page) (lang : JSVal) (s0 : State) :
    Keeps (Unsaved s0) (changeLanguage R P lang false) := by
  intro s hs
  rw [changeLanguage_state]
  exact hs

theorem keeps_changeTheme_unsaved (R : Realm) (P : Page) (theme : JSVal) (s0 : State) :
    Keeps (Unsaved s0) (changeTheme R P theme false) := by
  intro s hs
  rw [changeTheme_frame]
  exact hs

theorem keeps_toggleEffect_unsaved (R : Realm) (P : Page) (effect : JStr) (state : JSVal)
    (s0 : State) : Keeps (Unsaved s0) (toggleEffect R P effect state false) := by
  intro s hs
  rw [toggleEffect_frame]
  exact hs

theorem keeps_applyEffect (R : Realm) (P : Page) (effect : JStr) (I : State → Prop)
    (h : ∀ state, Keeps I (toggleEffect R P effect state false)) :
    Keeps I (applyEffect R P effect) := by
  unfold applyEffect
  refine keeps_bind I _ _ (keeps_getState I) fun s => ?_
  refine keeps_bind I _ _ (keeps_liftE I _) fun effects => ?_
  refine keeps_bind I _ _ (keeps_liftE I _) fun state => ?_
  exact h state

/-- The part of `applySettings` after the language line. -/
theorem keeps_applyRest (R : Realm) (P : Page) (I : State → Prop)
    (ht : ∀ theme, Keeps I (changeTheme R P theme false))
    (he : ∀ effect state, Keeps I (toggleEffect R P effect state false)) :
    Keeps I (do
      let s ← getState
      let theme ← liftE (getStrict R s.settings (utf16 "theme"))
      changeTheme R P theme false
      applyEffect R P (utf16 "crt")
      applyEffect R P (utf16 "scanlines")
      applyEffect R P (utf16 "glitch")
      applyEffect R P (utf16 "grid")) := by
  refine keeps_bind I _ _ (keeps_getState I) fun s => ?_
  refine keeps_bind I _ _ (keeps_liftE I _) fun theme => ?_
  refine keeps_bind I _ _ (ht theme) fun _ => ?_
  refine keeps_bind I _ _ (keeps_applyEffect R P _ I (he _)) fun _ => ?_
  refine keeps_bind I _ _ (keeps_applyEffect R P _ I (he _)) fun _ => ?_
  refine keeps_bind I _ _ (keeps_applyEffect R P _ I (he _)) fun _ => ?_
  exact keeps_applyEffect R P _ I (he _)

theorem keeps_applySettings (R : Realm) (P : Page) (I : State → Prop)
    (hl : ∀ lang, Keeps I (changeLanguage R P lang false))
    (ht : ∀ theme, Keeps I (changeTheme R P theme false))
    (he : ∀ effect state, Keeps I (toggleEffect R P effect state false)) :
    Keeps I (applySettings R P) := by
  unfold applySettings
  refine keeps_bind I _ _ (keeps_getState I) fun s => ?_
  refine keeps_bind I _ _ (keeps_liftE I _) fun lang => ?_
  refine keeps_bind I _ _ (hl lang) fun _ => ?_
  exact keeps_applyRest R P I ht he

/-- `applySettings` persists nothing and logs nothing. -/
theorem applySettings_unsaved (R : Realm) (P : Page) (s : State) :
    Unsaved s (applySettings R P s).2 :=
  keeps_applySettings R P (Unsaved s) (fun _ => keeps_changeLanguage_unsaved R P _ s)
    (fun _ => keeps_changeTheme_unsaved R P _ s)
    (fun _ _ => keeps_toggleEffect_unsaved R P _ _ s) s ⟨rfl, rfl, rfl, rfl⟩

theorem keeps_read {β : Type} (I : State → Prop) (f : State → JS β)
    (h : ∀ s, I s → I (f s s).2) : Keeps I (getState >>= f) := by
  intro s hs
  rw [getState_bind]
  exact h s hs

theorem getStrict_own (R : Realm) (x : JSVal) (k : JStr) (v : JSVal)
    (h : ownGet x k = some v) : getStrict R x k = .ok v := by
  cases x <;> simp [ownGet] at h
  simp [getStrict, getProp, h]

theorem keeps_changeLanguage_settings (R : Realm) (P : Page) (x : JSVal) (lang : JSVal)
    (h : ownGet x (utf16 "language") = some lang) :
    Keeps (fun s => s.settings = x) (changeLanguage R P lang false) := by
  intro s hs
  replace hs : s.settings = x := hs
  rw [changeLanguage_state, hs, assignIn_same x _ _ h]

theorem keeps_changeTheme_settings (R : Realm) (P : Page) (x : JSVal) (theme : JSVal)
    (h : ownGet x (utf16 "theme") = some theme) :
    Keeps (fun s => s.settings = x) (changeTheme R P theme false) := by
  intro s hs
  replace hs : s.settings = x := hs
  rw [changeTheme_frame, hs, assignIn_same x _ _ h]

theorem keeps_applyEffect_settings (R : Realm) (P : Page) (x : JSVal) (l t : JStr)
    (eff : JStr → Bool) (hx : IsSettings x l t eff) (e : JStr) (he : e ∈ effectNames) :
    Keeps (fun s => s.settings = x) (applyEffect R P e) := by
  obtain ⟨ps, es, rfl, hes, hdp, hde, hl, ht, hall⟩ := hx.shape
  unfold applyEffect
  apply keeps_read
  intro s hs
  replace hs : s.settings = .obj ps := hs
  have h1 : getStrict R s.settings (utf16 "effects") = .ok (.obj es) := by
    rw [hs]; exact getStrict_own R _ _ _ hes
  have h2 : getStrict R (.obj es) e = .ok (.bool (eff e)) := getStrict_own R _ _ _ (hall e he)
  simp only [liftE_bind, h1, h2]
  rcases toggleEffect_settings R P e (.bool (eff e)) s with h | ⟨old, -, h⟩
  · rw [h, hs]
  · obtain ⟨x1, hx1, -, hsame⟩ := assignEffect_settings R _ l t eff hx e he (eff e)
    have hc : checkedOf (.bool (eff e)) old = eff e := by simp [checkedOf, toBool]
    rw [hc, hs, hx1] at h
    rw [← Except.ok.inj h, hsame rfl]

/-- `applySettings` does not alter well-formed settings, however it ends. -/
theorem keeps_applySettings_settings (R : Realm) (P : Page) (x : JSVal) (l t : JStr)
    (eff : JStr → Bool) (hx : IsSettings x l t eff) :
    Keeps (fun s => s.settings = x) (applySettings R P) := by
  have hl := hx.2.1
  have ht := hx.2.2.1
  unfold applySettings
  apply keeps_read
  intro s hs
  replace hs : s.settings = x := hs
  simp only [liftE_bind, hs, getStrict_own R x _ _ hl]
  refine keeps_bind _ _ _ (keeps_changeLanguage_settings R P x _ hl) (fun _ => ?_) s hs
  apply keeps_read
  intro s1 hs1
  replace hs1 : s1.settings = x := hs1
  simp only [liftE_bind, hs1, getStrict_own R x _ _ ht]
  refine keeps_bind _ _ _ (keeps_changeTheme_settings R P x _ ht) (fun _ => ?_) s1 hs1
  refine keeps_bind _ _ _ (keeps_applyEffect_settings R P x l t eff hx _ (by decide)) fun _ => ?_
  refine keeps_bind _ _ _ (keeps_applyEffect_settings R P x l t eff hx _ (by decide)) fun _ => ?_
  refine keeps_bind _ _ _ (keeps_applyEffect_settings R P x l t eff hx _ (by decide)) fun _ => ?_
  exact keeps_applyEffect_settings R P x l t eff hx _ (by decide)

/-! ## The mirror invariant -/

theorem keeps_saveSettings_mirrors (R : Realm) (P : Page) :
    Keeps LangMirrors (saveSettings R P) := by
  intro s hs
  rw [saveSettings_frame]
  exact hs

theorem keeps_addLog_mirrors (R : Realm) (P : Page) (message : JSVal) :
    Keeps LangMirrors (addLog R P message) := by
  intro s hs
  rw [addLog_frame]
  exact hs

theorem keeps_changeTheme_mirrors (R : Realm) (P : Page) (theme : JSVal) :
    Keeps LangMirrors (changeTheme R P theme false) := by
  intro s hs
  rw [changeTheme_frame]
  unfold LangMirrors at hs ⊢
  simp only
  cases h : assignIn s.settings (utf16 "theme") theme with
  | error e => exact hs
  | ok v => simp only; rw [assignIn_language _ _ _ _ (by decide) h]; exact hs

theorem keeps_toggleEffect_mirrors (R : Realm) (P : Page) (effect : JStr) (state : JSVal) :
    Keeps LangMirrors (toggleEffect R P effect state false) := by
  intro s hs
  rw [toggleEffect_frame]
  unfold LangMirrors at hs ⊢
  simp only
  rcases toggleEffect_settings R P effect state s with h | ⟨old, -, h⟩
  · rw [h]; exact hs
  · rw [assignEffect_language R _ _ _ _ h]; exact hs

theorem changeLanguage_mirrors (R : Realm) (P : Page) (lang : JSVal) (s : State)
    (h : settingsIsObject s) : LangMirrors (changeLanguage R P lang false s).2 := by
  obtain ⟨ps, hps⟩ := h
  rw [changeLanguage_state, hps]
  simp [LangMirrors, assignIn, ownGet, find_assign_self ps (utf16 "language") lang (by decide)]

theorem applySettings_mirrors (R : Realm) (P : Page) (s : State) (h : settingsIsObject s) :
    LangMirrors (applySettings R P s).2 := by
  obtain ⟨ps, hps⟩ := h
  unfold applySettings
  rw [getState_bind]
  simp only [liftE_bind, hps, getStrict]
  apply bind_state LangMirrors
  · intro a s1 h1
    have := changeLanguage_mirrors R P (getProp R (.obj ps) (utf16 "language")) s ⟨ps, hps⟩
    rw [h1] at this
    exact keeps_applyRest R P LangMirrors (keeps_changeTheme_mirrors R P)
      (keeps_toggleEffect_mirrors R P) s1 this
  · intro e s1 h1
    have := changeLanguage_mirrors R P (getProp R (.obj ps) (utf16 "language")) s ⟨ps, hps⟩
    rw [h1] at this
    exact this

/-- With the save flag set, an operation is the operation without it followed
by `saveSettings`; a property kept by both is kept by the whole. -/
theorem mirrors_then_save (R : Realm) (P : Page) (m : JS Unit) (s : State)
    (h : LangMirrors (m s).2) :
    LangMirrors ((m >>= fun _ => saveSettings R P) s).2 := by
  apply bind_state LangMirrors
  · intro a s1 h1
    rw [h1] at h
    exact keeps_saveSettings_mirrors R P s1 h
  · intro e s1 h1
    rw [h1] at h
    exact h

/-! ## Runs that complete -/

theorem walkSpec_undefined (R : Realm) (ks : List JStr) :
    walkSpec R .undefined ks = .undefined := by
  cases ks <;> rfl

theorem foldl_optGet_eq_walkSpec (R : Realm) (ks : List JStr) (v : JSVal) :
    ks.foldl (optGet R) v = walkSpec R v ks := by
  induction ks generalizing v with
  | nil => cases v <;> rfl
  | cons k ks ih =>
    cases v <;> simp only [List.foldl, optGet, walkSpec, ih, walkSpec_undefined]

theorem walkSpec_append (R : Realm) (pre post : List JStr) (v : JSVal) :
    walkSpec R v (pre ++ post) = walkSpec R (walkSpec R v pre) post := by
  rw [← foldl_optGet_eq_walkSpec, ← foldl_optGet_eq_walkSpec, ← foldl_optGet_eq_walkSpec,
    List.foldl_append]

theorem walkSpec_cons (R : Realm) (k : JStr) (ks : List JStr) (v : JSVal) :
    walkSpec R v (k :: ks) = walkSpec R (optGet R v k) ks := by
  rw [← foldl_optGet_eq_walkSpec, ← foldl_optGet_eq_walkSpec]; rfl

/-- On a table that is neither `undefined` nor `null`, the loop of
`getTranslation` computes the walk of the specification. -/
theorem getTranslation_eq (R : Realm) (translations : JSVal) (lang key : JStr)
    (h1 : translations ≠ .undefined) (h2 : translations ≠ .null) :
    getTranslation R translations (.str lang) key
      = .ok (walkSpec R (getProp R translations lang) (splitDot key)) := by
  unfold getTranslation
  cases translations <;>
    simp_all [toStr, getStrict, bind, Except.bind, pure, Except.pure, foldl_optGet_eq_walkSpec]

theorem splitDot_append (p s : JStr) :
    splitDot (p ++ dot :: s) = splitDot p ++ splitDot s := by
  unfold splitDot
  induction p with
  | nil => simp [List.splitOnP_cons]
  | cons x p ih =>
    simp only [List.cons_append, List.splitOnP_cons, ih]
    split
    · rfl
    · cases h : List.splitOnP (fun u => u == dot) p with
      | nil => exact absurd h (List.splitOnP_ne_nil _ _)
      | cons a l => simp [List.modifyHead]

/-- `changeLanguage` without saving completes on a page that has the
language button, whose translatable elements can be relabelled and whose
renderers complete. -/
theorem changeLanguage_ok (R : Realm) (P : Page) (l : JStr) (s : State) (ps : Props)
    (hs : s.settings = .obj ps)
    (hid : utf16 "lang-" ++ l ∈ P.ids)
    (ht : translateAll R s.translations (.str l) P.i18n = .ok ())
    (hr : P.renders s.translations (.str l) = true) :
    changeLanguage R P (.str l) false s =
      (.ok (), { s with currentLanguage := .str l,
                        settings := .obj (ps.assign (utf16 "language") (.str l)) }) := by
  simp only [changeLanguage, modifyState_bind, getState_bind, liftE_bind, guardJS_bind,
    whenJS_false, pure_run, hs, assignIn, toStr, hid, decide_True, if_true, ht, hr]

theorem classAdd_ok (cls tok : JStr) (h : checkToken tok = .ok ()) :
    classAdd cls tok = .ok (serialize (addTok (tokens cls) tok)) := by
  simp [classAdd, h, bind, Except.bind, pure, Except.pure]

theorem classRemove_ok (cls tok : JStr) (h : checkToken tok = .ok ()) :
    classRemove cls tok = .ok (serialize (removeTok (tokens cls) tok)) := by
  simp [classRemove, h, bind, Except.bind, pure, Except.pure]

/-- `changeTheme` without saving completes on a page that has the theme
button, for a theme name made of word characters. -/
theorem changeTheme_ok (R : Realm) (P : Page) (t : JStr) (s : State) (ps : Props)
    (hs : s.settings = .obj ps)
    (hid : utf16 "theme-" ++ t ∈ P.ids)
    (ht : isWordStr t = true) :
    changeTheme R P (.str t) false s =
      (.ok (), { s with settings := .obj (ps.assign (utf16 "theme") (.str t)),
                        bodyClass := themedClass t s.bodyClass }) := by
  unfold themedClass
  have hm : isThemeMarker (utf16 "theme-" ++ t) = true :=
    (isThemeMarker_iff _).mpr ⟨t, rfl, ht⟩
  have hck : checkToken (utf16 "theme-" ++ t) = .ok () := by
    have hws := marker_no_ws _ hm
    have : (utf16 "theme-" ++ t).any isWs = false := by
      rw [List.any_eq_false]
      intro u hu
      simp [hws u hu]
    have hne : (utf16 "theme-" ++ t).isEmpty = false := by rw [themeLit]; rfl
    simp only [checkToken, hne, this]
    rfl
  by_cases hg : t = utf16 "green"
  · subst hg
    simp only [changeTheme, modifyState_bind, getState_bind, liftE_bind, guardJS_bind,
      whenJS_false, pure_run, whenJS_bind, js_bind_assoc, pure_bind_run, hs, assignIn, toStr,
      hid, decide_True, if_true]
    simp
  · have hne : (JSVal.str t ≠ JSVal.str (utf16 "green")) := by
      intro h; exact hg (JSVal.str.inj h)
    simp only [changeTheme, modifyState_bind, getState_bind, liftE_bind, guardJS_bind,
      whenJS_false, pure_run, whenJS_bind, js_bind_assoc, pure_bind_run, hs, assignIn, toStr,
      hid, decide_True, if_true, hne, ne_eq, not_false_eq_true, classAdd_ok _ _ hck, hg,
      if_false, modifyState_run]

/-! ## Theme markers after a theme change -/

theorem clean_tokens (c : JStr) (hc : cleanClasses c = true) :
    ∀ t ∈ tokens c, (isThemeMarker t || !hasThemeDash t) = true := by
  intro t ht
  have := ((mem_tokens c t).mp ht).1
  simp only [cleanClasses, List.all_eq_true] at hc
  exact hc t this

theorem clean_serialize (ts : List JStr) (hws : ∀ t ∈ ts, ∀ u ∈ t, isWs u = false)
    (hok : ∀ t ∈ ts, (isThemeMarker t || !hasThemeDash t) = true) :
    cleanClasses (serialize ts) = true := by
  cases ts with
  | nil => decide
  | cons t ts =>
    simp only [cleanClasses, splitWs_serialize _ (List.cons_ne_nil t ts) hws, List.all_eq_true]
    exact hok

theorem clean_stripTheme (c : JStr) (hc : cleanClasses c = true) :
    cleanClasses (stripTheme c) = true := by
  have hsplit := splitWs_stripTheme c hc
  simp only [cleanClasses, List.all_eq_true] at hc ⊢
  rw [hsplit]
  intro t ht
  obtain ⟨t0, ht0, rfl⟩ := List.mem_map.mp ht
  unfold eraseMarker
  split
  · decide
  · exact hc t0 ht0

/-- One theme change: the classes that are not theme markers stay, in order,
followed by the marker of the new theme. -/
theorem tokens_themedClass (t c : JStr) (hc : cleanClasses c = true) (ht : isWordStr t = true) :
    tokens (themedClass t c) = (tokens c).filter (fun x => !isThemeMarker x) ++ markerOf t ∧
      cleanClasses (themedClass t c) = true := by
  have hm : isThemeMarker (utf16 "theme-" ++ t) = true :=
    (isThemeMarker_iff _).mpr ⟨t, rfl, ht⟩
  unfold themedClass markerOf
  by_cases hg : t = utf16 "green"
  · simp only [hg, if_true, List.append_nil]
    exact ⟨tokens_stripTheme c hc, clean_stripTheme c hc⟩
  · simp only [hg, if_false]
    rw [tokens_stripTheme c hc]
    have hnot : utf16 "theme-" ++ t ∉ (tokens c).filter (fun x => !isThemeMarker x) := by
      intro h
      have := (List.mem_filter.mp h).2
      simp [hm] at this
    have hset : TokenSet (addTok ((tokens c).filter (fun x => !isThemeMarker x))
        (utf16 "theme-" ++ t)) :=
      tokenSet_addTok _ _ (tokenSet_filter _ _ (tokenSet_tokens c))
        (by rw [themeLit]; simp) (marker_no_ws _ hm)
    refine ⟨?_, ?_⟩
    · rw [tokens_serialize _ hset]
      simp [addTok, hnot]
    · apply clean_serialize _ (fun x hx => (hset.1 x hx).2)
      intro x hx
      simp only [addTok, hnot, if_false] at hx
      rcases List.mem_append.mp hx with h | h
      · exact clean_tokens c hc x (List.mem_filter.mp h).1
      · simp at h; subst h; simp [hm]

theorem filter_marker_markerOf (t : JStr) (ht : isWordStr t = true) :
    (markerOf t).filter isThemeMarker = markerOf t ∧
      (markerOf t).filter (fun x => !isThemeMarker x) = [] := by
  have hm : isThemeMarker (utf16 "theme-" ++ t) = true :=
    (isThemeMarker_iff _).mpr ⟨t, rfl, ht⟩
  unfold markerOf
  split <;> simp [hm]

/-- Two theme changes in a row leave the non-marker classes and the marker of
the second theme. -/
theorem tokens_themedClass_twice (t1 t2 c : JStr) (hc : cleanClasses c = true)
    (h1 : isWordStr t1 = true) (h2 : isWordStr t2 = true) :
    tokens (themedClass t2 (themedClass t1 c))
      = (tokens c).filter (fun x => !isThemeMarker x) ++ markerOf t2 := by
  obtain ⟨e1, c1⟩ := tokens_themedClass t1 c hc h1
  obtain ⟨e2, -⟩ := tokens_themedClass t2 _ c1 h2
  rw [e2, e1, List.filter_append, (filter_marker_markerOf t1 h1).2, List.append_nil,
    List.filter_filter]
  simp

theorem themeMarkers_of_tokens (cls : JStr) (ts : List JStr) (t : JStr)
    (ht : isWordStr t = true)
    (h : tokens cls = ts.filter (fun x => !isThemeMarker x) ++ markerOf t) :
    themeMarkers cls = markerOf t := by
  unfold themeMarkers
  rw [h, List.filter_append, (filter_marker_markerOf t ht).1, List.filter_filter]
  simp

/-! ## Effect lines of `applySettings` -/

theorem findBox_setBox (bs : List (JStr × Bool)) (q k : JStr) (b : Bool) :
    (findBox (setBox bs q b) k).isSome = (findBox bs k).isSome := by
  induction bs with
  | nil => rfl
  | cons p bs ih =>
    obtain ⟨i, c⟩ := p
    simp only [setBox]
    split
    · rename_i h
      subst h
      simp only [findBox]
      split <;> rfl
    · simp only [findBox]
      split
      · rfl
      · exact ih

theorem hasBoxes_setBox (bs : List (JStr × Bool)) (q : JStr) (b : Bool) (h : hasBoxes bs) :
    hasBoxes (setBox bs q b) := by
  intro e he
  rw [findBox_setBox]
  exact h e he

theorem checkToken_effect (e : JStr) (he : e ∈ effectNames) :
    checkToken (utf16 "no-" ++ e) = .ok () := by
  simp only [effectNames, List.mem_cons, List.mem_singleton, List.not_mem_nil, or_false] at he
  rcases he with rfl | rfl | rfl | rfl <;> decide

theorem effect_not_marker (e : JStr) (he : e ∈ effectNames) :
    isThemeMarker (utf16 "no-" ++ e) = false := by
  simp only [effectNames, List.mem_cons, List.mem_singleton, List.not_mem_nil, or_false] at he
  rcases he with rfl | rfl | rfl | rfl <;> decide

theorem effect_token (e : JStr) (he : e ∈ effectNames) :
    utf16 "no-" ++ e ≠ [] ∧ ∀ u ∈ utf16 "no-" ++ e, isWs u = false := by
  simp only [effectNames, List.mem_cons, List.mem_singleton, List.not_mem_nil, or_false] at he
  rcases he with rfl | rfl | rfl | rfl <;> decide

theorem tokenSet_applyTok (b : Bool) (tok : JStr) (ts : List JStr) (h : TokenSet ts)
    (hne : tok ≠ []) (hws : ∀ u ∈ tok, isWs u = false) : TokenSet (applyTok b tok ts) := by
  unfold applyTok
  split
  · exact tokenSet_removeTok ts tok h
  · exact tokenSet_addTok ts tok h hne hws

theorem mem_applyTok (b : Bool) (tok x : JStr) (ts : List JStr) :
    x ∈ applyTok b tok ts ↔ (if x = tok then b = false else x ∈ ts) := by
  unfold applyTok addTok removeTok
  by_cases hx : x = tok
  · subst hx
    cases b <;> simp
    split <;> simp [*]
  · cases b <;> simp [hx]
    split <;> simp [hx]

theorem filter_marker_applyTok (b : Bool) (tok : JStr) (ts : List JStr)
    (h : isThemeMarker tok = false) :
    (applyTok b tok ts).filter isThemeMarker = ts.filter isThemeMarker := by
  unfold applyTok addTok removeTok
  cases b
  · simp only [Bool.false_eq_true, if_false]
    split
    · rfl
    · simp [List.filter_append, h]
  · simp only [if_true, List.filter_filter]
    apply List.filter_congr
    intro x _
    by_cases hx : x = tok
    · subst hx; simp [h]
    · simp [hx]

/-- One effect line of `applySettings` on well-formed settings and a page
with the checkboxes: it completes, keeps the settings and sets the marker. -/
theorem applyEffect_ok (R : Realm) (P : Page) (l t : JStr) (eff : JStr → Bool) (e : JStr)
    (he : e ∈ effectNames) (s : State) (hx : IsSettings s.settings l t eff)
    (hb : hasBoxes s.boxes) :
    ∃ s1, applyEffect R P e s = (.ok (), s1) ∧ s1.settings = s.settings ∧
      s1.currentLanguage = s.currentLanguage ∧ Unsaved s s1 ∧ hasBoxes s1.boxes ∧
      tokens s1.bodyClass = applyTok (eff e) (utf16 "no-" ++ e) (tokens s.bodyClass) := by
  obtain ⟨ps, es, hps, hes, hdp, hde, hl, ht, hall⟩ := hx.shape
  have h1 : getStrict R s.settings (utf16 "effects") = .ok (.obj es) := by
    rw [hps]; exact getStrict_own R _ _ _ hes
  have h2 : getStrict R (.obj es) e = .ok (.bool (eff e)) := getStrict_own R _ _ _ (hall e he)
  obtain ⟨old, hold⟩ := Option.isSome_iff_exists.mp (hb e he)
  obtain ⟨x1, hx1, -, hsame⟩ := assignEffect_settings R _ l t eff hx e he (eff e)
  have hc : checkedOf (.bool (eff e)) old = eff e := by simp [checkedOf, toBool]
  have hck := checkToken_effect e he
  have hcls : (if eff e = true then classRemove s.bodyClass (utf16 "no-" ++ e)
      else classAdd s.bodyClass (utf16 "no-" ++ e))
      = .ok (serialize (applyTok (eff e) (utf16 "no-" ++ e) (tokens s.bodyClass))) := by
    unfold applyTok
    split
    · exact classRemove_ok _ _ hck
    · exact classAdd_ok _ _ hck
  refine ⟨{ s with boxes := setBox s.boxes (utf16 "toggle-" ++ e) (eff e),
                   bodyClass := serialize (applyTok (eff e) (utf16 "no-" ++ e) (tokens s.bodyClass)) },
    ?_, rfl, rfl, ⟨rfl, rfl, rfl, rfl⟩, hasBoxes_setBox _ _ _ hb, ?_⟩
  · simp only [applyEffect, getState_bind, liftE_bind, h1, h2, toggleEffect_false, hold,
      toggleBox_run, hc, hx1, hcls, hsame rfl]
  · exact tokens_serialize _ (tokenSet_applyTok _ _ _ (tokenSet_tokens _) (effect_token e he).1
      (effect_token e he).2)

theorem unsaved_trans (s s1 s2 : State) (h1 : Unsaved s s1) (h2 : Unsaved s1 s2) :
    Unsaved s s2 := by
  obtain ⟨a, b, c, d⟩ := h1
  obtain ⟨e, f, g, h⟩ := h2
  exact ⟨e.trans a, f.trans b, g.trans c, h.trans d⟩

/-- `applySettings` on well-formed settings and a complete page: it
completes, and the state reached is described field by field. -/
theorem applySettings_ok (R : Realm) (P : Page) (s : State) (l t : JStr) (eff : JStr → Bool)
    (hx : IsSettings s.settings l t eff)
    (hlang : utf16 "lang-" ++ l ∈ P.ids) (htheme : utf16 "theme-" ++ t ∈ P.ids)
    (hword : isWordStr t = true) (hboxes : hasBoxes s.boxes)
    (hrelabel : translateAll R s.translations (.str l) P.i18n = .ok ())
    (hr : P.renders s.translations (.str l) = true) :
    ∃ s1, applySettings R P s = (.ok (), s1) ∧ s1.settings = s.settings ∧
      s1.currentLanguage = .str l ∧ Unsaved s s1 ∧
      tokens s1.bodyClass =
        applyTok (eff (utf16 "grid")) (utf16 "no-" ++ utf16 "grid")
          (applyTok (eff (utf16 "glitch")) (utf16 "no-" ++ utf16 "glitch")
            (applyTok (eff (utf16 "scanlines")) (utf16 "no-" ++ utf16 "scanlines")
              (applyTok (eff (utf16 "crt")) (utf16 "no-" ++ utf16 "crt")
                (tokens (themedClass t s.bodyClass))))) := by
  obtain ⟨ps, es, hps, hes, hdp, hde, hl, ht, hall⟩ := hx.shape
  have e1 := changeLanguage_ok R P l s ps hps hlang hrelabel hr
  rw [assign_same ps _ _ hl] at e1
  obtain ⟨s2, e2, k2, c2, b2, t2, u2⟩ : ∃ s2, changeTheme R P (.str t) false
      { s with currentLanguage := .str l, settings := .obj ps } = (.ok (), s2) ∧
      s2.settings = .obj ps ∧ s2.currentLanguage = .str l ∧ s2.boxes = s.boxes ∧
      s2.bodyClass = themedClass t s.bodyClass ∧ Unsaved s s2 := by
    have e2 := changeTheme_ok R P t { s with currentLanguage := .str l, settings := .obj ps } ps
      rfl htheme hword
    rw [assign_same ps _ _ ht] at e2
    exact ⟨_, e2, rfl, rfl, rfl, rfl, ⟨rfl, rfl, rfl, rfl⟩⟩
  have hx2 : IsSettings s2.settings l t eff := by
    rw [k2, ← hps]; exact hx
  obtain ⟨s3, e3, k3, c3, u3, b3, t3⟩ := applyEffect_ok R P l t eff (utf16 "crt") (by decide)
    s2 hx2 (by rw [b2]; exact hboxes)
  obtain ⟨s4, e4, k4, c4, u4, b4, t4⟩ := applyEffect_ok R P l t eff (utf16 "scanlines")
    (by decide) s3 (by rw [k3]; exact hx2) b3
  obtain ⟨s5, e5, k5, c5, u5, b5, t5⟩ := applyEffect_ok R P l t eff (utf16 "glitch")
    (by decide) s4 (by rw [k4, k3]; exact hx2) b4
  obtain ⟨s6, e6, k6, c6, u6, b6, t6⟩ := applyEffect_ok R P l t eff (utf16 "grid")
    (by decide) s5 (by rw [k5, k4, k3]; exact hx2) b5
  refine ⟨s6, ?_, ?_, ?_, ?_, ?_⟩
  · simp only [applySettings, getState_bind, liftE_bind, hps,
      getStrict_own R (.obj ps) _ _ hl]
    rw [bind_ok _ _ _ _ _ e1]
    simp only [getState_bind, liftE_bind, getStrict_own R (.obj ps) _ _ ht]
    rw [bind_ok _ _ _ _ _ e2, bind_ok _ _ _ _ _ e3, bind_ok _ _ _ _ _ e4,
      bind_ok _ _ _ _ _ e5, e6]
  · rw [k6, k5, k4, k3, k2, hps]
  · rw [c6, c5, c4, c3, c2]
  · exact unsaved_trans _ _ _ (unsaved_trans _ _ _ (unsaved_trans _ _ _
      (unsaved_trans _ _ _ u2 u3) u4) u5) u6
  · rw [t6, t5, t4, t3, t2]

/-! ## Translation lookup -/

/-- C1. On every translation table (a value that is neither `undefined` nor
`null`), for every current language and every key, `getTranslation` does not
throw; its result is the walk of the specification, which indexes segment by
segment from `translations[currentLanguage]`; it is `undefined` when the
table has no entry for the current language, and when some segment of the
dot-split key is absent from the value reached so far (indexing with it gives
`undefined`, own and inherited properties both counting as present). -/
theorem getTranslation_resolves (R : Realm) (translations : JSVal) (lang key : JStr)
    (h1 : translations ≠ .undefined) (h2 : translations ≠ .null) :
    getTranslation R translations (.str lang) key
        = .ok (walkSpec R (getProp R translations lang) (splitDot key))
    ∧ (getProp R translations lang = .undefined →
        getTranslation R translations (.str lang) key = .ok .undefined)
    ∧ (∀ pre k post, splitDot key = pre ++ k :: post →
        optGet R (walkSpec R (getProp R translations lang) pre) k = .undefined →
        getTranslation R translations (.str lang) key = .ok .undefined) := by
  refine ⟨getTranslation_eq R _ _ _ h1 h2, ?_, ?_⟩
  · intro h
    rw [getTranslation_eq R _ _ _ h1 h2, h, walkSpec_undefined]
  · intro pre k post hk h
    rw [getTranslation_eq R _ _ _ h1 h2, hk, walkSpec_append, walkSpec_cons, h,
      walkSpec_undefined]

/-- Witness of C1 on the sample table: a key that resolves and a key whose
second segment is absent. -/
theorem getTranslation_resolves_witness :
    sampleTable ≠ .undefined ∧ sampleTable ≠ .null ∧
    getTranslation sampleRealm sampleTable (.str (utf16 "es")) (utf16 "logs.systemInit")
      = .ok (.str (utf16 "Sistema iniciado")) ∧
    getTranslation sampleRealm sampleTable (.str (utf16 "es")) (utf16 "logs.missing.deeper")
      = .ok .undefined :=
  ⟨by decide, by decide,
   ((getTranslation_resolves sampleRealm sampleTable (utf16 "es") (utf16 "logs.systemInit")
      (by decide) (by decide)).1).trans (by decide),
   (getTranslation_resolves sampleRealm sampleTable (utf16 "es") (utf16 "logs.missing.deeper")
      (by decide) (by decide)).2.2 [utf16 "logs"] (utf16 "missing") [utf16 "deeper"]
      (by decide) (by decide)⟩

/-- C9, the claim as stated fails: on the sample table `logs.systemInit` is a
leaf string, and the walk continued with the segment `length` yields the
number of its code units instead of `undefined`. -/
theorem getTranslation_past_leaf_counterexample :
    getTranslation sampleRealm sampleTable (.str (utf16 "es")) (utf16 "logs.systemInit")
      = .ok (.str (utf16 "Sistema iniciado")) ∧
    getTranslation sampleRealm sampleTable (.str (utf16 "es"))
      (utf16 "logs.systemInit" ++ dot :: utf16 "length") = .ok (.num 16) := by
  decide

/-- C9 as amended. When a dotted path `p` resolves to a leaf string, the walk
continued with a further path `s` gives `undefined` and does not throw,
provided the first segment `k` of `s` names no property of the string: it is
not `length`, not an index below the length of the leaf, and not inherited
from the prototype chain of strings. -/
theorem getTranslation_past_leaf (R : Realm) (translations : JSVal) (lang p s leaf k : JStr)
    (rest : List JStr)
    (hp : getTranslation R translations (.str lang) p = .ok (.str leaf))
    (hs : splitDot s = k :: rest)
    (hlen : k ≠ utf16 "length")
    (hidx : ∀ i, arrayIndex k = some i → leaf.length ≤ i)
    (hproto : R.proto .string k = .undefined) :
    getTranslation R translations (.str lang) (p ++ dot :: s) = .ok .undefined := by
  have h1 : translations ≠ .undefined := by
    rintro rfl; simp [getTranslation, toStr, getStrict, bind, Except.bind] at hp
  have h2 : translations ≠ .null := by
    rintro rfl; simp [getTranslation, toStr, getStrict, bind, Except.bind] at hp
  rw [getTranslation_eq R _ _ _ h1 h2] at hp ⊢
  have hp1 := Except.ok.inj hp
  rw [splitDot_append, walkSpec_append, hp1, hs, walkSpec_cons]
  have : optGet R (.str leaf) k = .undefined := by
    simp only [optGet, getProp, hlen, if_false]
    cases hi : arrayIndex k with
    | none => simpa using hproto
    | some i =>
      have := hidx i hi
      simp [List.getElem?_eq_none this, hproto]
  rw [this, walkSpec_undefined]

/-- Witness of the amended C9 on the sample table: past the leaf
`logs.systemInit`, the path `title.x` gives `undefined`. -/
theorem getTranslation_past_leaf_witness :
    getTranslation sampleRealm sampleTable (.str (utf16 "es")) (utf16 "logs.systemInit")
      = .ok (.str (utf16 "Sistema iniciado")) ∧
    getTranslation sampleRealm sampleTable (.str (utf16 "es"))
      (utf16 "logs.systemInit" ++ dot :: utf16 "title.x") = .ok .undefined :=
  ⟨by decide,
   getTranslation_past_leaf sampleRealm sampleTable (utf16 "es") (utf16 "logs.systemInit")
    (utf16 "title.x") (utf16 "Sistema iniciado") (utf16 "title") [utf16 "x"]
    (by decide) (by decide) (by decide) (by decide) (by decide)⟩

/-! ## Settings lifecycle -/

/-- C2. For every well-formed Settings value `x` held in memory, `saveSettings`
stores the JSON text of `x` under `scpSettings` and leaves `x` in memory;
that text parses back to `x`; and `loadSettings` recovers `x` from the store:
run from any state whose store holds what `saveSettings` wrote, whatever its
in-memory settings were (the defaults at start-up, or the state that
`saveSettings` left), it ends with the in-memory settings equal to `x`,
whatever the outcome of either call: `applySettings` alters no field. -/
theorem save_load_roundtrip (R : Realm) (P : Page) (s : State) (l t : JStr)
    (eff : JStr → Bool) (hx : IsSettings s.settings l t eff) :
    (saveSettings R P s).2.stored = some (.json s.settings) ∧
    parse (.json s.settings) = .ok s.settings ∧
    (saveSettings R P s).2.settings = s.settings ∧
    (loadSettings R P (saveSettings R P s).2).2.settings = s.settings ∧
    (∀ s1 : State, s1.stored = (saveSettings R P s).2.stored →
      (loadSettings R P s1).2.settings = s.settings) := by
  have hstored : (saveSettings R P s).2.stored = some (.json s.settings) := by
    rw [saveSettings_frame, ← stringify_data R _ hx.1]
  have hset : (saveSettings R P s).2.settings = s.settings := by
    rw [saveSettings_frame]
  have hload : ∀ s1 : State, s1.stored = (saveSettings R P s).2.stored →
      (loadSettings R P s1).2.settings = s.settings := by
    intro s1 h1
    rw [hstored] at h1
    simp only [loadSettings, getState_bind]
    rw [h1]
    simp only [Blob.truthy, if_true, liftE_bind, parse, modifyState_bind]
    exact keeps_applySettings_settings R P s.settings l t eff hx _ rfl
  exact ⟨hstored, rfl, hset, hload _ rfl, hload⟩

/-- Witness of C2: the scenario settings are saved on the sample page; a
fresh start with the default settings in memory and that store loads them. -/
theorem save_load_roundtrip_witness :
    IsSettings sampleSettings (utf16 "en") (utf16 "amber") (effectsOf false true true true) ∧
    (initialState
      (saveSettings sampleRealm samplePage { sampleState with settings := sampleSettings }).2.stored
      [] sampleBoxes).settings = defaultSettings ∧
    defaultSettings ≠ sampleSettings ∧
    (loadSettings sampleRealm samplePage (initialState
      (saveSettings sampleRealm samplePage { sampleState with settings := sampleSettings }).2.stored
      [] sampleBoxes)).2.settings = sampleSettings :=
  ⟨isSettings_mk _ _ _ _ _ _, rfl, by decide,
   (save_load_roundtrip sampleRealm samplePage { sampleState with settings := sampleSettings }
      (utf16 "en") (utf16 "amber") (effectsOf false true true true)
      (isSettings_mk _ _ _ _ _ _)).2.2.2.2 _ rfl⟩

/-- C3. From every prior state, after `resetSettings` the in-memory settings
are exactly the default literal and nothing is stored under `scpSettings`,
whatever the outcome of the call; a following `loadSettings` finds nothing,
completes, and changes nothing. -/
theorem resetSettings_restores_defaults (R : Realm) (P : Page) (s : State) :
    (resetSettings R P s).2.settings = defaultSettings ∧
    defaultSettings = mkSettings (utf16 "es") (utf16 "green") true true true true ∧
    (resetSettings R P s).2.stored = none ∧
    loadSettings R P (resetSettings R P s).2 = (.ok (), (resetSettings R P s).2) := by
  have key : (resetSettings R P s).2.settings = defaultSettings ∧
      (resetSettings R P s).2.stored = none := by
    simp only [resetSettings, modifyState_bind]
    apply bind_state (fun s1 => s1.settings = defaultSettings ∧ s1.stored = none)
    · intro a s1 h
      have h1 := keeps_applySettings_settings R P defaultSettings _ _ _
        (isSettings_mk (utf16 "es") (utf16 "green") true true true true)
        { s with settings := defaultSettings, stored := none } rfl
      have h2 := applySettings_unsaved R P
        { s with settings := defaultSettings, stored := none }
      rw [h] at h1 h2
      rw [addLog_frame]
      exact ⟨h1, h2.2.1⟩
    · intro e s1 h
      have h1 := keeps_applySettings_settings R P defaultSettings _ _ _
        (isSettings_mk (utf16 "es") (utf16 "green") true true true true)
        { s with settings := defaultSettings, stored := none } rfl
      have h2 := applySettings_unsaved R P
        { s with settings := defaultSettings, stored := none }
      rw [h] at h1 h2
      exact ⟨h1, h2.2.1⟩
  refine ⟨key.1, rfl, key.2, ?_⟩
  simp only [loadSettings, getState_bind, key.2]
  rfl

/-- C4, evaluated at the failing input: in the start state, with the
translation table still empty, `saveSettings` writes the serialised settings
and then throws a `TypeError`. -/
theorem saveSettings_throws_on_empty_table :
    (initialState none [] sampleBoxes).translations = .obj .nil ∧
    (saveSettings sampleRealm samplePage (initialState none [] sampleBoxes)).1
      = .error .typeError ∧
    (saveSettings sampleRealm samplePage (initialState none [] sampleBoxes)).2.stored
      = some (.json defaultSettings) := by
  decide

/-- C5, the claim as stated fails: with the persisted text `null` and the
default settings in memory, `loadSettings` throws a `TypeError` and leaves
`null` in `settings`; with a persisted text that is not JSON it throws a
`SyntaxError`. -/
theorem loadSettings_malformed_counterexample :
    (loadSettings sampleRealm samplePage (initialState (some (.json .null)) [] sampleBoxes)).1
      = .error .typeError ∧
    (loadSettings sampleRealm samplePage
      (initialState (some (.json .null)) [] sampleBoxes)).2.settings = .null ∧
    JSVal.null ≠ defaultSettings ∧
    (loadSettings sampleRealm samplePage (initialState (some (.text false)) [] sampleBoxes)).1
      = .error .syntaxError := by
  decide

/-- C5 as amended. When the persisted text is not valid JSON, `loadSettings`
leaves the whole state unchanged, the in-memory settings included: an empty
text counts as absent and the call completes, any other text makes
`JSON.parse` throw a `SyntaxError` before `settings` is assigned. -/
theorem loadSettings_malformed_text (R : Realm) (P : Page) (s : State) (empty : Bool)
    (h : s.stored = some (.text empty)) :
    loadSettings R P s = (if empty then .ok () else .error .syntaxError, s) := by
  cases empty <;> simp [loadSettings, getState_bind, h, Blob.truthy, parse, liftE_bind]

/-- Witness of the amended C5: from the default settings, a non-empty text
that is not JSON. -/
theorem loadSettings_malformed_text_witness :
    (loadSettings sampleRealm samplePage
      (initialState (some (.text false)) [] sampleBoxes)).2.settings = defaultSettings ∧
    (loadSettings sampleRealm samplePage (initialState (some (.text false)) [] sampleBoxes)).1
      = .error .syntaxError := by
  rw [loadSettings_malformed_text sampleRealm samplePage
    (initialState (some (.text false)) [] sampleBoxes) false rfl]
  exact ⟨rfl, rfl⟩

/-- C6. `currentLanguage` mirrors `settings.language` in the initial state,
and in the state reached by each settings-changing operation, however the
operation ends: `changeLanguage` for any language and save flag and
`applySettings` when the settings are an object, `changeTheme` and
`toggleEffect` when the mirror held before, `resetSettings` from any state,
and `loadSettings` when the persisted text denotes an object. -/
theorem currentLanguage_mirrors_settings (R : Realm) (P : Page) :
    (∀ stored cls boxes, LangMirrors (initialState stored cls boxes)) ∧
    (∀ s lang save, settingsIsObject s → LangMirrors (changeLanguage R P lang save s).2) ∧
    (∀ s theme save, LangMirrors s → LangMirrors (changeTheme R P theme save s).2) ∧
    (∀ s effect state save, LangMirrors s →
      LangMirrors (toggleEffect R P effect state save s).2) ∧
    (∀ s, settingsIsObject s → LangMirrors (applySettings R P s).2) ∧
    (∀ s, LangMirrors (resetSettings R P s).2) ∧
    (∀ s ps, s.stored = some (.json (.obj ps)) → LangMirrors (loadSettings R P s).2) := by
  refine ⟨fun _ _ _ => rfl, ?_, ?_, ?_, applySettings_mirrors R P, ?_, ?_⟩
  · intro s lang save h
    cases save
    · exact changeLanguage_mirrors R P lang s h
    · rw [changeLanguage_true]
      exact mirrors_then_save R P _ s (changeLanguage_mirrors R P lang s h)
  · intro s theme save h
    cases save
    · exact keeps_changeTheme_mirrors R P theme s h
    · rw [changeTheme_true]
      exact mirrors_then_save R P _ s (keeps_changeTheme_mirrors R P theme s h)
  · intro s effect state save h
    cases save
    · exact keeps_toggleEffect_mirrors R P effect state s h
    · rw [toggleEffect_true]
      exact mirrors_then_save R P _ s (keeps_toggleEffect_mirrors R P effect state s h)
  · intro s
    simp only [resetSettings, modifyState_bind]
    apply bind_state LangMirrors
    · intro a s1 h
      have := applySettings_mirrors R P { s with settings := defaultSettings, stored := none }
        ⟨_, rfl⟩
      rw [h] at this
      exact keeps_addLog_mirrors R P _ s1 this
    · intro e s1 h
      have := applySettings_mirrors R P { s with settings := defaultSettings, stored := none }
        ⟨_, rfl⟩
      rw [h] at this
      exact this
  · intro s ps h
    simp only [loadSettings, getState_bind, h, Blob.truthy, if_true, liftE_bind, parse,
      modifyState_bind]
    exact applySettings_mirrors R P _ ⟨ps, rfl⟩

/-- Witness of C6 on the sample page: `changeLanguage("en")` with the save
flag completes and the mirror holds afterwards; `changeTheme("amber")`
completes and keeps it. -/
theorem currentLanguage_mirrors_settings_witness :
    settingsIsObject sampleState ∧
    (changeLanguage sampleRealm samplePage (.str (utf16 "en")) true sampleState).1 = .ok () ∧
    LangMirrors (changeLanguage sampleRealm samplePage (.str (utf16 "en")) true sampleState).2 ∧
    LangMirrors sampleState ∧
    (changeTheme sampleRealm samplePage (.str (utf16 "amber")) true sampleState).1 = .ok () ∧
    LangMirrors (changeTheme sampleRealm samplePage (.str (utf16 "amber")) true sampleState).2 :=
  ⟨⟨_, rfl⟩, by decide,
   (currentLanguage_mirrors_settings sampleRealm samplePage).2.1 sampleState _ true ⟨_, rfl⟩,
   rfl, by decide,
   (currentLanguage_mirrors_settings sampleRealm samplePage).2.2.1 sampleState _ true rfl⟩

/-! ## Effects of the setters -/

/-- C8. For a known effect `e` with its checkbox on the page, a boolean `b`
and well-formed in-memory settings, `toggleEffect(e, b)` with the save flag
leaves well-formed settings with the same language, the same theme and the
same states of the other effects, and `effects[e] = b`; `saveSettings` runs
once: exactly one text is written, the serialisation of the new settings,
which is what the store then holds. -/
theorem toggleEffect_sets_one_effect (R : Realm) (P : Page) (s : State) (l t : JStr)
    (eff : JStr → Bool) (e : JStr) (b old : Bool)
    (hx : IsSettings s.settings l t eff) (he : e ∈ effectNames)
    (hbox : findBox s.boxes (utf16 "toggle-" ++ e) = some old) :
    IsSettings (toggleEffect R P e (.bool b) true s).2.settings l t (Function.update eff e b) ∧
    (toggleEffect R P e (.bool b) true s).2.writes
      = s.writes ++ [.json (toggleEffect R P e (.bool b) true s).2.settings] ∧
    (toggleEffect R P e (.bool b) true s).2.stored
      = some (.json (toggleEffect R P e (.bool b) true s).2.settings) ∧
    (toggleEffect R P e (.bool b) true s).2.currentLanguage = s.currentLanguage := by
  obtain ⟨x1, hx1, hwf, -⟩ := assignEffect_settings R _ l t eff hx e he b
  have hc : checkedOf (.bool b) old = b := by simp [checkedOf, toBool]
  have hck := checkToken_effect e he
  have hcls : (if b = true then classRemove s.bodyClass (utf16 "no-" ++ e)
      else classAdd s.bodyClass (utf16 "no-" ++ e))
      = .ok (serialize (applyTok b (utf16 "no-" ++ e) (tokens s.bodyClass))) := by
    unfold applyTok
    split
    · exact classRemove_ok _ _ hck
    · exact classAdd_ok _ _ hck
  have hrun : toggleEffect R P e (.bool b) false s =
      (.ok (), { s with boxes := setBox s.boxes (utf16 "toggle-" ++ e) b, settings := x1,
                        bodyClass := serialize (applyTok b (utf16 "no-" ++ e) (tokens s.bodyClass)) }) := by
    simp only [toggleEffect_false, hbox, toggleBox_run, hc, hx1, hcls]
  rw [toggleEffect_true, bind_ok _ _ _ _ _ hrun, saveSettings_frame]
  refine ⟨hwf, ?_, ?_, rfl⟩ <;> simp only [stringify_data R x1 hwf.1]

/-- Witness of C8: the scenario `toggleEffect("crt", false)` on the defaults. -/
theorem toggleEffect_sets_one_effect_witness :
    IsSettings sampleState.settings (utf16 "es") (utf16 "green") (effectsOf true true true true) ∧
    (toggleEffect sampleRealm samplePage (utf16 "crt") (.bool false) true sampleState).2.settings
      = mkSettings (utf16 "es") (utf16 "green") false true true true ∧
    (toggleEffect sampleRealm samplePage (utf16 "crt") (.bool false) true sampleState).2.writes
      = [.json (toggleEffect sampleRealm samplePage (utf16 "crt") (.bool false) true
          sampleState).2.settings] :=
  ⟨isSettings_mk _ _ _ _ _ _, by decide,
   (toggleEffect_sets_one_effect sampleRealm samplePage sampleState (utf16 "es") (utf16 "green")
      (effectsOf true true true true) (utf16 "crt") false true (isSettings_mk _ _ _ _ _ _)
      (by decide) (by decide)).2.1⟩

/-- The state after `changeTheme` with the save flag, in the class attribute
and the settings. -/
theorem changeTheme_true_state (R : Realm) (P : Page) (t : JStr) (s : State) (ps : Props)
    (hs : s.settings = .obj ps) (hid : utf16 "theme-" ++ t ∈ P.ids)
    (ht : isWordStr t = true) :
    (changeTheme R P (.str t) true s).2.bodyClass = themedClass t s.bodyClass ∧
    (changeTheme R P (.str t) true s).2.settings
      = .obj (ps.assign (utf16 "theme") (.str t)) := by
  rw [changeTheme_true, bind_ok _ _ _ _ _ (changeTheme_ok R P t s ps hs hid ht),
    saveSettings_frame]
  exact ⟨rfl, rfl⟩

/-- C10 as amended. Let every class of `body` be a theme marker or free of
the text `theme-`, let the settings be an object, and let `t1` and `t2` be
supported themes: names made of word characters whose buttons are on the
page.  After `changeTheme(t1)` and then `changeTheme(t2)`, however the two
calls end, the classes of `body` are the prior classes that are not theme
markers, in order, followed by `theme-t2` unless `t2` is `green`; so the
theme markers are exactly `theme-t2`, or none for `green`; a state without
markers is restored by a change to `green`; and `settings.theme` is `t2`. -/
theorem changeTheme_twice (R : Realm) (P : Page) (s : State) (t1 t2 : JStr)
    (hobj : settingsIsObject s) (hc : cleanClasses s.bodyClass = true)
    (h1 : isWordStr t1 = true) (h2 : isWordStr t2 = true)
    (hb1 : utf16 "theme-" ++ t1 ∈ P.ids) (hb2 : utf16 "theme-" ++ t2 ∈ P.ids) :
    tokens (changeTheme R P (.str t2) true (changeTheme R P (.str t1) true s).2).2.bodyClass
      = (tokens s.bodyClass).filter (fun x => !isThemeMarker x) ++ markerOf t2 ∧
    themeMarkers (changeTheme R P (.str t2) true (changeTheme R P (.str t1) true s).2).2.bodyClass
      = markerOf t2 ∧
    (themeMarkers s.bodyClass = [] → t2 = utf16 "green" →
      tokens (changeTheme R P (.str t2) true (changeTheme R P (.str t1) true s).2).2.bodyClass
        = tokens s.bodyClass) ∧
    ownGet (changeTheme R P (.str t2) true (changeTheme R P (.str t1) true s).2).2.settings
      (utf16 "theme") = some (.str t2) := by
  obtain ⟨ps, hps⟩ := hobj
  obtain ⟨e1, e2⟩ := changeTheme_true_state R P t1 s ps hps hb1 h1
  obtain ⟨e3, e4⟩ := changeTheme_true_state R P t2 _ _ e2 hb2 h2
  have htok := tokens_themedClass_twice t1 t2 s.bodyClass hc h1 h2
  rw [e3, e4, e1]
  refine ⟨htok, themeMarkers_of_tokens _ _ t2 h2 htok, ?_, ?_⟩
  · intro hm hg
    rw [htok]
    simp only [markerOf, hg, if_true, List.append_nil]
    rw [List.filter_eq_self]
    intro x hx
    have : x ∉ themeMarkers s.bodyClass := by rw [hm]; simp
    simp only [themeMarkers, List.mem_filter, hx, true_and] at this
    simp [this]
  · simp [ownGet, find_assign_self _ (utf16 "theme") (.str t2) (by decide)]

/-- Witness of the amended C10: `amber` then `green` on the sample page, from
a `body` that carries only an effect marker. -/
theorem changeTheme_twice_witness :
    cleanClasses (utf16 "no-crt") = true ∧
    tokens (changeTheme sampleRealm samplePage (.str (utf16 "green")) true
      (changeTheme sampleRealm samplePage (.str (utf16 "amber")) true
        { sampleState with bodyClass := utf16 "no-crt" }).2).2.bodyClass = [utf16 "no-crt"] :=
  ⟨by decide,
   ((changeTheme_twice sampleRealm samplePage { sampleState with bodyClass := utf16 "no-crt" }
      (utf16 "amber") (utf16 "green") ⟨_, rfl⟩ (by decide) (by decide) (by decide) (by decide)
      (by decide)).1).trans (by decide)⟩

/-- C10, the claim as stated fails for some prior classes: from the single
class `themethemetheme-x-y-amber`, after `changeTheme("amber")` and
`changeTheme("green")` the body carries the marker `theme-amber`, which the
second replacement assembled from the pieces around a match. -/
theorem changeTheme_twice_counterexample :
    themeMarkers (utf16 "themethemetheme-x-y-amber") = [] ∧
    themeMarkers (changeTheme sampleRealm samplePage (.str (utf16 "green")) true
      (changeTheme sampleRealm samplePage (.str (utf16 "amber")) true
        { sampleState with bodyClass := utf16 "themethemetheme-x-y-amber" }).2).2.bodyClass
      = [utf16 "theme-amber"] := by
  decide

/-! ## Loading a persisted value -/

/-- C7. Let the persisted text denote a well-formed Settings value `x` with
language `l`, theme `t` and effect states `eff`, on a page that has the
button of `l`, the button of `t` (a name made of word characters) and the
four checkboxes, whose translatable elements can be relabelled in `l`, whose
renderers complete, and whose `body` classes are theme markers or free of
the text `theme-`.  Then
`loadSettings` completes with `currentLanguage = l` and `settings = x`; the
theme markers of `body` are exactly `theme-t`, or none when `t` is `green`;
`no-e` is a class of `body` exactly for the effects `e` that are off in `x`;
and nothing is written to the store. -/
theorem loadSettings_applies_blob (R : Realm) (P : Page) (s : State) (x : JSVal) (l t : JStr)
    (eff : JStr → Bool)
    (hstored : s.stored = some (.json x)) (hx : IsSettings x l t eff)
    (hlang : utf16 "lang-" ++ l ∈ P.ids) (htheme : utf16 "theme-" ++ t ∈ P.ids)
    (hword : isWordStr t = true) (hboxes : hasBoxes s.boxes)
    (hrelabel : translateAll R s.translations (.str l) P.i18n = .ok ())
    (hr : P.renders s.translations (.str l) = true)
    (hc : cleanClasses s.bodyClass = true) :
    (loadSettings R P s).1 = .ok () ∧
    (loadSettings R P s).2.currentLanguage = .str l ∧
    (loadSettings R P s).2.settings = x ∧
    themeMarkers (loadSettings R P s).2.bodyClass = markerOf t ∧
    (∀ e ∈ effectNames,
      (utf16 "no-" ++ e ∈ tokens (loadSettings R P s).2.bodyClass ↔ eff e = false)) ∧
    (loadSettings R P s).2.stored = s.stored ∧
    (loadSettings R P s).2.writes = s.writes := by
  obtain ⟨s1, e1, k1, c1, ⟨-, u2, u3, -⟩, t1⟩ := applySettings_ok R P { s with settings := x }
    l t eff hx hlang htheme hword hboxes hrelabel hr
  have hrun : loadSettings R P s = (.ok (), s1) := by
    simp only [loadSettings, getState_bind]
    rw [hstored]
    simp only [Blob.truthy, if_true, liftE_bind, parse, modifyState_bind]
    exact e1
  rw [hrun]
  have hth := (tokens_themedClass t s.bodyClass hc hword).1
  refine ⟨rfl, c1, k1, ?_, ?_, u2, u3⟩
  · simp only [themeMarkers]
    rw [t1, filter_marker_applyTok _ _ _ (effect_not_marker _ (by decide)),
      filter_marker_applyTok _ _ _ (effect_not_marker _ (by decide)),
      filter_marker_applyTok _ _ _ (effect_not_marker _ (by decide)),
      filter_marker_applyTok _ _ _ (effect_not_marker _ (by decide))]
    exact themeMarkers_of_tokens _ _ t hword hth
  · intro e he
    simp only
    rw [t1]
    simp only [effectNames, List.mem_cons, List.mem_singleton, List.not_mem_nil, or_false] at he
    rcases he with rfl | rfl | rfl | rfl
    · simp only [mem_applyTok,
        (eq_false (by decide) : (utf16 "no-" ++ utf16 "crt" = utf16 "no-" ++ utf16 "grid") = False),
        (eq_false (by decide) : (utf16 "no-" ++ utf16 "crt" = utf16 "no-" ++ utf16 "glitch") = False),
        (eq_false (by decide) :
          (utf16 "no-" ++ utf16 "crt" = utf16 "no-" ++ utf16 "scanlines") = False),
        if_false, if_true]
    · simp only [mem_applyTok,
        (eq_false (by decide) :
          (utf16 "no-" ++ utf16 "scanlines" = utf16 "no-" ++ utf16 "grid") = False),
        (eq_false (by decide) :
          (utf16 "no-" ++ utf16 "scanlines" = utf16 "no-" ++ utf16 "glitch") = False),
        if_false, if_true]
    · simp only [mem_applyTok,
        (eq_false (by decide) : (utf16 "no-" ++ utf16 "glitch" = utf16 "no-" ++ utf16 "grid") = False),
        if_false, if_true]
    · simp only [mem_applyTok, if_true]

/-- Witness of C7: the scenario of the specification on the sample page. -/
theorem loadSettings_applies_blob_witness :
    IsSettings sampleSettings (utf16 "en") (utf16 "amber") (effectsOf false true true true) ∧
    (loadSettings sampleRealm samplePage
      { sampleState with stored := some (.json sampleSettings) }).1 = .ok () ∧
    (loadSettings sampleRealm samplePage
      { sampleState with stored := some (.json sampleSettings) }).2.currentLanguage
      = .str (utf16 "en") ∧
    tokens (loadSettings sampleRealm samplePage
      { sampleState with stored := some (.json sampleSettings) }).2.bodyClass
      = [utf16 "theme-amber", utf16 "no-crt"] ∧
    (loadSettings sampleRealm samplePage
      { sampleState with stored := some (.json sampleSettings) }).2.writes = [] :=
  ⟨isSettings_mk _ _ _ _ _ _,
   (loadSettings_applies_blob sampleRealm samplePage
      { sampleState with stored := some (.json sampleSettings) } sampleSettings
      (utf16 "en") (utf16 "amber") (effectsOf false true true true) rfl
      (isSettings_mk _ _ _ _ _ _) (by decide) (by decide) (by decide) (by decide) (by decide)
      rfl (by decide)).1,
   by decide, by decide, by decide⟩

end SCP
